import Mathlib

/-!
# showtime: patch graph, name translation, auto-wiring, child bookkeeping, event loop

A shallow embedding of `src/showtime.cc`, and of the append path of `src/lib/buffer.c`.

Modelling conventions
* `std::string` is `List Char`; `std::vector` is `List`, `push_back` appends at the end.
* Positions returned by `std::string::find` are `Option Nat` (`none` is `npos`).  The source
  stores them in `int` variables; for strings shorter than `2^31` characters the stored value
  converts back to the same position (and `-1` back to `npos`), which is what the model uses.
* `DIE`/`CHECK` terminate the process: the embedded function returns `none`.
-/

namespace Showtime

/-! ## Strings -/

abbrev Str := List Char

abbrev ClientLocalName := Str
abbrev ClientGlobalName := Str
abbrev PortName := Str
abbrev PortLocalName := Str
abbrev PortGlobalName := Str

/-- Index of the first occurrence of `c` in `s`, if any. -/
def findIdx (c : Char) : Str → Option Nat
  | [] => none
  | x :: xs => if x = c then some 0 else (findIdx c xs).map (· + 1)

/-- The call `s.find(c, pos)`: position of the first `c` at index `pos` or later. -/
def find (s : Str) (c : Char) (pos : Nat) : Option Nat :=
  (findIdx c (s.drop pos)).map (· + pos)

/-- The call `s.substr(pos)`; throws `std::out_of_range` (here `none`) when `pos > s.size()`. -/
def substr (s : Str) (pos : Nat) : Option Str :=
  if pos ≤ s.length then some (s.drop pos) else none

/-- The call `s.substr(0, n)` where `n` comes from an `int` holding the result of `find`:
the value `-1` converts to `npos` and selects the whole string. -/
def substr0 (s : Str) (n : Option Nat) : Str :=
  match n with
  | some k => s.take k
  | none => s

/-- The expression `s[i]` for `i ≤ s.size()`: the terminating null character at `i = s.size()`. -/
def charAt (s : Str) (i : Nat) : Char :=
  s.getD i (Char.ofNat 0)

/-! ## Patch -/

/-- The typedef `Patch::Connection`: `first` is the source, `second` the destination. -/
abbrev Connection := PortLocalName × PortLocalName

/-- The enum `Patch::State`. -/
inductive State
  | START
  | LHS_ASSIGNED
  | RIGHT_ARROW
  | LEFT_ARROW
  | RHS_ASSIGNED
  deriving DecidableEq, Repr

/-- The class `Patch`: only `connections_` is state (`path_` names the file whose tokens are
passed to `reload` explicitly). -/
structure Patch where
  connections_ : List Connection
  deriving DecidableEq, Repr

/-- The variables live across iterations of the loop in `Patch::reload`. -/
structure ReloadVars where
  src : Str
  dst : Str
  st : State
  connections_ : List Connection
  deriving DecidableEq, Repr

/-- The token `->`. -/
def right_arrow_token : Str := ['-', '>']

/-- The token `<-`. -/
def left_arrow_token : Str := ['<', '-']

/-- The first `if` chain of the loop body of `Patch::reload` (lines 87-111), for a non-empty
`item`.  An endpoint arriving in state `LHS_ASSIGNED` matches no branch and changes nothing;
the arrows set the state whatever it was. -/
def reload_classify (v : ReloadVars) (item : Str) : Option ReloadVars :=
  if (find item ':' 0).isSome then
    if v.st = State.START then
      some { v with src := item, st := State.LHS_ASSIGNED }
    else if v.st = State.RIGHT_ARROW then
      some { v with dst := item, st := State.RHS_ASSIGNED }
    else if v.st = State.LEFT_ARROW then
      some { v with dst := v.src, src := item, st := State.RHS_ASSIGNED }
    else
      some v
  else if item = right_arrow_token then
    some { v with st := State.RIGHT_ARROW }
  else if item = left_arrow_token then
    some { v with st := State.LEFT_ARROW }
  else
    none

/-- The second `if` of the loop body (lines 112-116): emit the connection. -/
def reload_emit (v : ReloadVars) : ReloadVars :=
  if v.st = State.RHS_ASSIGNED then
    { v with connections_ := v.connections_ ++ [(v.src, v.dst)], st := State.START }
  else
    v

/-- One pass through the loop body of `Patch::reload` after `item` has been set. -/
def reload_body (v : ReloadVars) (item : Str) : Option ReloadVars :=
  (reload_classify v item).map reload_emit

/-- The loop of `Patch::reload` over the successive values of `item`; an empty `item` leaves
the loop (`break`). -/
def reload_loop (v : ReloadVars) : List Str → Option ReloadVars
  | [] => some v
  | item :: rest =>
    if item = [] then some v
    else (reload_body v item).bind (fun w => reload_loop w rest)

/-- The values `item` holds at the successive evaluations of the loop body when the file
contains the whitespace-separated tokens `toks`.  After the last token the stream still
converts to `true`, the next `in >> item` fails without touching `item` (the string is only
erased once the sentry succeeded), so the body runs once more on the last token; on a file
without tokens `item` stays empty. -/
def items_read (toks : List Str) : List Str :=
  match toks.getLast? with
  | none => []
  | some t => toks ++ [t]

/-- The method `Patch::reload` on a readable file holding the tokens `toks`: `none` is
`DIE("parse error")`. -/
def Patch.reload (self : Patch) (toks : List Str) : Option Patch :=
  let cleared : Patch := { self with connections_ := [] }
  (reload_loop { src := [], dst := [], st := State.START,
                 connections_ := cleared.connections_ } (items_read toks)).map
    (fun v => { connections_ := v.connections_ })

/-- The method `Patch::get_src_ports_for_dst`. -/
def Patch.get_src_ports_for_dst (self : Patch) (dst_port_name : PortLocalName) :
    List PortLocalName :=
  self.connections_.foldl
    (fun result c => if c.2 = dst_port_name then result ++ [c.1] else result) []

/-- The method `Patch::get_dst_ports_for_src`. -/
def Patch.get_dst_ports_for_src (self : Patch) (src_port_name : PortLocalName) :
    List PortLocalName :=
  self.connections_.foldl
    (fun result c => if c.1 = src_port_name then result ++ [c.2] else result) []

/-- The variables of the loop of `Patch::reload` at the moment it calls `DIE("parse error")`,
on the successive values of `item`; `none` when the loop ends without it. -/
def reload_loop_die (v : ReloadVars) : List Str → Option ReloadVars
  | [] => none
  | item :: rest =>
    if item = [] then none
    else
      match reload_body v item with
      | none => some v
      | some w => reload_loop_die w rest

/-- The member `connections_` at the moment `Patch::reload` calls `DIE("parse error")`;
`none` when the reload succeeds. -/
def Patch.reload_die (self : Patch) (toks : List Str) : Option Patch :=
  let cleared : Patch := { self with connections_ := [] }
  (reload_loop_die { src := [], dst := [], st := State.START,
                     connections_ := cleared.connections_ } (items_read toks)).map
    (fun v => { connections_ := v.connections_ })

/-! ### Well-formed token streams (the patch source format) -/

/-- The two arrows of the patch source format. -/
inductive Arrow
  | right
  | left
  deriving DecidableEq, Repr

/-- One line `ENDPOINT -> ENDPOINT` or `ENDPOINT <- ENDPOINT` of the patch source format. -/
structure Triple where
  lhs : Str
  arrow : Arrow
  rhs : Str
  deriving DecidableEq, Repr

/-- The token an arrow is written as. -/
def Arrow.token : Arrow → Str
  | Arrow.right => right_arrow_token
  | Arrow.left => left_arrow_token

/-- A triple is well formed when both endpoints contain the separator. -/
def Triple.wf (t : Triple) : Prop := ':' ∈ t.lhs ∧ ':' ∈ t.rhs

/-- The rule a triple denotes: a right arrow keeps the left endpoint as source, a left arrow
swaps the roles. -/
def Triple.rule (t : Triple) : Connection :=
  match t.arrow with
  | Arrow.right => (t.lhs, t.rhs)
  | Arrow.left => (t.rhs, t.lhs)

/-- The token stream of a sequence of triples. -/
def stream_of : List Triple → List Str
  | [] => []
  | t :: ts => t.lhs :: t.arrow.token :: t.rhs :: stream_of ts

/-- A token the parser recognises: an endpoint (contains the separator) or one of the arrows. -/
def recognized (t : Str) : Prop :=
  ':' ∈ t ∨ t = right_arrow_token ∨ t = left_arrow_token

/-! ## JACK engine

The engine is an external collaborator.  Its state is the set of existing ports together with
a log of the `port_register` and `connect` commands it received.  Whether it grants a
`port_register` for a name that is still free is its own decision (it refuses an empty or
over-long name, or when its port table is full): `answers` holds the answers it will give
to the coming requests, `true` to grant, and past the end of the list it grants.  A granted
request makes the port exist under the full name `client:port`. -/

/-- The flag `JackPortIsInput` of `jack/types.h`. -/
def JackPortIsInput : Nat := 1

/-- The flag `JackPortIsOutput` of `jack/types.h`. -/
def JackPortIsOutput : Nat := 2

/-- What the engine knows of a port (`jack_port_t`). -/
structure JackPort where
  name : PortGlobalName
  type : Str
  flags : Nat
  deriving DecidableEq, Repr

/-- The commands `JackConnection` forwards to the engine. -/
inductive JackCmd
  | port_register (port_name : PortName) (port_type : Str) (flags : Nat)
  | connect (src dst : PortGlobalName)
  deriving DecidableEq, Repr

/-- The class `JackConnection`: the client handle (the name it was opened under), and the
engine state seen through it. -/
structure JackConnection where
  client_name : ClientGlobalName
  ports : List JackPort
  log : List JackCmd
  answers : List Bool
  deriving DecidableEq, Repr

/-- The method `JackConnection::port_by_name`; `none` is the null pointer. -/
def JackConnection.port_by_name (self : JackConnection) (port_name : PortGlobalName) :
    Option JackPort :=
  self.ports.find? (fun p => decide (p.name = port_name))

/-- The method `JackConnection::port_exists`. -/
def JackConnection.port_exists (self : JackConnection) (port_name : PortGlobalName) : Bool :=
  (self.port_by_name port_name).isSome

/-- The method `JackConnection::connect`: the request is issued; a refusal only logs a
warning. -/
def JackConnection.connect (self : JackConnection) (src dst : PortGlobalName) :
    JackConnection :=
  { self with log := self.log ++ [JackCmd.connect src dst] }

/-- The method `JackConnection::port_register`: the request is issued; the engine answers
the null pointer (`none`) when the name `client:port_name` is taken or when it refuses the
request, and creates the port otherwise. -/
def JackConnection.port_register (self : JackConnection) (port_name : PortName)
    (port_type : Str) (flags : Nat) : Option JackPort × JackConnection :=
  let logged : JackConnection :=
    { self with log := self.log ++ [JackCmd.port_register port_name port_type flags] }
  let full : PortGlobalName := self.client_name ++ [':'] ++ port_name
  if self.port_exists full then (none, logged)
  else if self.answers.headD true then
    let port : JackPort := { name := full, type := port_type, flags := flags }
    (some port, { logged with ports := logged.ports ++ [port], answers := self.answers.tail })
  else
    (none, { logged with answers := self.answers.tail })

/-! ## Children -/

/-- The class `Child`; `pid_` is `0` when no process is tracked. -/
structure Child where
  prefix_ : Str
  client_local_name_ : Str
  pid_ : Int
  deriving DecidableEq, Repr

/-- The method `Child::clear_pid`. -/
def Child.clear_pid (self : Child) : Child :=
  { self with pid_ := 0 }

/-- The class `ChildManager`; `children_` lists the entries of the map in iteration (key)
order. -/
structure ChildManager where
  children_ : List (Str × Child)
  prefix_ : Str
  deriving DecidableEq, Repr

/-- The loop of `ChildManager::sigchld`: clear the first entry tracking `pid`, then `break`. -/
def sigchld_loop (pid : Int) : List (Str × Child) → List (Str × Child)
  | [] => []
  | e :: rest =>
    if e.2.pid_ = pid then (e.1, e.2.clear_pid) :: rest
    else e :: sigchld_loop pid rest

/-- The method `ChildManager::sigchld`. -/
def ChildManager.sigchld (self : ChildManager) (pid : Int) : ChildManager :=
  { self with children_ := sigchld_loop pid self.children_ }

/-! ## ShowTime -/

/-- The class `Options`. -/
structure Options where
  client_global_name_ : ClientGlobalName
  deriving DecidableEq, Repr

/-- The class `ShowTime` (the members the embedded methods use). -/
structure ShowTime where
  opt_ : Options
  jc_ : JackConnection
  cm_ : ChildManager
  patch_ : Patch
  deriving DecidableEq, Repr

/-- What the constructor establishes: the engine connection is opened under the
orchestrator's own global name (`JackUseExactName`). -/
def ShowTime.opened (self : ShowTime) : Prop :=
  self.jc_.client_name = self.opt_.client_global_name_

/-- The method `ShowTime::is_our_child`. -/
def ShowTime.is_our_child (self : ShowTime) (child_name : ClientGlobalName) : Bool :=
  let our_name := self.opt_.client_global_name_
  let our_length := our_name.length
  decide (child_name.length > our_length) &&
    decide (child_name.take our_length = our_name) &&
    decide (charAt child_name our_length = '.') &&
    (find child_name '.' (our_length + 1)).isNone

/-- The method `ShowTime::port_name_global_to_local`. -/
def ShowTime.port_name_global_to_local (self : ShowTime) (port_name : PortGlobalName) :
    Option PortLocalName :=
  let our_length := self.opt_.client_global_name_.length
  substr port_name (our_length + 1)

/-- The method `ShowTime::port_name_local_to_global`. -/
def ShowTime.port_name_local_to_global (self : ShowTime) (port_name : PortLocalName) :
    PortGlobalName :=
  let our_name := self.opt_.client_global_name_
  if charAt port_name 0 = ':' then
    our_name ++ port_name
  else
    our_name ++ ['.'] ++ port_name

/-- The direction given to a boundary port: the opposite of the triggering port's. -/
def opposite_flags (port_flags : Nat) : Nat :=
  if port_flags &&& JackPortIsInput ≠ 0 then JackPortIsOutput else JackPortIsInput

/-- Lines 626-635 and, with the same text, 639-648 of `handle_port_registration`: register
the boundary port an endpoint `:name` denotes unless it exists; `none` is the failed
`CHECK`. -/
def ShowTime.ensure_boundary_port (self : ShowTime) (jc : JackConnection) (port_type : Str)
    (port_flags : Nat) (endpoint : PortLocalName) : Option JackConnection :=
  if charAt endpoint 0 = ':' then
    match substr endpoint 1 with
    | none => none
    | some pn =>
      let pgn : PortGlobalName := self.opt_.client_global_name_ ++ [':'] ++ pn
      if ! jc.port_exists pgn then
        let pflags := opposite_flags port_flags
        match jc.port_register pn port_type pflags with
        | (none, _) => none
        | (some _, jc1) => some jc1
      else
        some jc
  else
    some jc

/-- The first loop of `handle_port_registration` (lines 625-637), over the destinations of
the registered port. -/
def ShowTime.wire_dsts (self : ShowTime) (port_type : Str) (port_flags : Nat)
    (port_global_name : PortGlobalName) :
    JackConnection → List PortLocalName → Option JackConnection
  | jc, [] => some jc
  | jc, dst_port_name :: rest =>
    (self.ensure_boundary_port jc port_type port_flags dst_port_name).bind fun jc1 =>
      self.wire_dsts port_type port_flags port_global_name
        (jc1.connect port_global_name (self.port_name_local_to_global dst_port_name)) rest

/-- The second loop of `handle_port_registration` (lines 638-650), over the sources of the
registered port. -/
def ShowTime.wire_srcs (self : ShowTime) (port_type : Str) (port_flags : Nat)
    (port_global_name : PortGlobalName) :
    JackConnection → List PortLocalName → Option JackConnection
  | jc, [] => some jc
  | jc, src_port_name :: rest =>
    (self.ensure_boundary_port jc port_type port_flags src_port_name).bind fun jc1 =>
      self.wire_srcs port_type port_flags port_global_name
        (jc1.connect (self.port_name_local_to_global src_port_name) port_global_name) rest

/-- The client part of a port's global name: `substr(0, find(":"))`. -/
def client_part (port_global_name : PortGlobalName) : ClientGlobalName :=
  substr0 port_global_name (find port_global_name ':' 0)

/-- The method `ShowTime::handle_port_registration`.  A name the engine does not know makes
`port_by_name` answer the null pointer, which the source hands on to `jack_port_type`: no
result (`none`).  The unused local `right` is left out (its `substr` cannot throw). -/
def ShowTime.handle_port_registration (self : ShowTime) (name : PortGlobalName) :
    Option ShowTime :=
  match self.jc_.port_by_name name with
  | none => none
  | some port =>
    let port_type := port.type
    let port_flags := port.flags
    let left := client_part name
    if self.is_our_child left then
      match self.port_name_global_to_local name with
      | none => none
      | some port_local_name =>
        (self.wire_dsts port_type port_flags name self.jc_
            (self.patch_.get_dst_ports_for_src port_local_name)).bind fun jc1 =>
          (self.wire_srcs port_type port_flags name jc1
            (self.patch_.get_src_ports_for_dst port_local_name)).map fun jc2 =>
              { self with jc_ := jc2 }
    else
      some self

/-! ### The two loops of `handle_port_registration` seen as one -/

/-- The connection request issued for a matched endpoint: towards it when it is a destination
of the registered port (first loop), from it when it is a source (second loop). -/
def ShowTime.request (self : ShowTime) (port_global_name : PortGlobalName) (is_dst : Bool)
    (endpoint : PortLocalName) : JackCmd :=
  if is_dst then
    JackCmd.connect port_global_name (self.port_name_local_to_global endpoint)
  else
    JackCmd.connect (self.port_name_local_to_global endpoint) port_global_name

/-- The loops `wire_dsts` (`is_dst = true`) and `wire_srcs` (`is_dst = false`) written once;
`wire_dsts_eq_wire` and `wire_srcs_eq_wire` relate them. -/
def ShowTime.wire (self : ShowTime) (port_type : Str) (port_flags : Nat)
    (port_global_name : PortGlobalName) (is_dst : Bool) :
    JackConnection → List PortLocalName → Option JackConnection
  | jc, [] => some jc
  | jc, endpoint :: rest =>
    (self.ensure_boundary_port jc port_type port_flags endpoint).bind fun jc1 =>
      self.wire port_type port_flags port_global_name is_dst
        { jc1 with log := jc1.log ++ [self.request port_global_name is_dst endpoint] } rest

/-- Whether a command is a connection request. -/
def JackCmd.is_connect : JackCmd → Bool
  | JackCmd.connect _ _ => true
  | JackCmd.port_register _ _ _ => false

/-- The local form `handle_port_registration` computes for a port of ours. -/
def ShowTime.local_of (self : ShowTime) (port_global_name : PortGlobalName) : PortLocalName :=
  port_global_name.drop (self.opt_.client_global_name_.length + 1)

/-- The form of a direct child's global name: our name, the delimiter, and one more segment
without delimiter. -/
def ShowTime.child_form (self : ShowTime) (n : ClientGlobalName) : Prop :=
  ∃ seg : Str, n = self.opt_.client_global_name_ ++ '.' :: seg ∧ '.' ∉ seg

/-! ## Processes and signals

The operating system is an external collaborator.  Its state is the set of process ids a
`kill` reaches together with a log of the signals delivered through `kill`; delivering a
signal does not by itself remove the process (its exit is reported later by `SIGCHLD`). -/

/-- The signal number `SIGINT` of `signal.h` (Linux). -/
def SIGINT : Int := 2

/-- The signal number `SIGTERM` of `signal.h` (Linux). -/
def SIGTERM : Int := 15

/-- The signal number `SIGCHLD` of `signal.h` (Linux). -/
def SIGCHLD : Int := 17

/-- The process table as `kill` sees it, and the signals delivered so far. -/
structure Os where
  procs : List Int
  signals : List (Int × Int)
  deriving DecidableEq, Repr

/-- The system call `kill(pid, sig)`: `0` when the process exists, `-1` otherwise; the null
signal only probes. -/
def Os.kill (self : Os) (pid sig : Int) : Int × Os :=
  if pid ∈ self.procs then
    if sig = 0 then (0, self)
    else (0, { self with signals := self.signals ++ [(pid, sig)] })
  else
    (-1, self)

/-- The method `Child::running`. -/
def Child.running (self : Child) (os : Os) : Bool :=
  if self.pid_ ≠ 0 then decide ((os.kill self.pid_ 0).1 = 0) else false

/-- The method `Child::stop`: the child after the call and the operating system after it.
The method assigns no member. -/
def Child.stop (self : Child) (os : Os) : Child × Os :=
  if self.pid_ ≠ 0 then
    (self, (os.kill self.pid_ SIGTERM).2)
  else
    (self, os)

/-- The loop of `ChildManager::stop_children` over the entries of the map. -/
def stop_children_loop : List (Str × Child) → Os → List (Str × Child) × Os
  | [], os => ([], os)
  | e :: rest, os =>
    let r := if e.2.running os then e.2.stop os else (e.2, os)
    let t := stop_children_loop rest r.2
    ((e.1, r.1) :: t.1, t.2)

/-- The method `ChildManager::stop_children`. -/
def ChildManager.stop_children (self : ChildManager) (os : Os) : ChildManager × Os :=
  let r := stop_children_loop self.children_ os
  ({ self with children_ := r.1 }, r.2)

/-- The method `ChildManager::forget_children`. -/
def ChildManager.forget_children (self : ChildManager) : ChildManager :=
  { self with children_ := [] }

/-- The static method `SignalManager::is_termination_signal`. -/
def is_termination_signal (signum : Int) : Bool :=
  decide (signum = SIGTERM) || decide (signum = SIGINT)

/-! ## The event loop -/

/-- The enumerator `SHOWTIME_SIGNAL_RECEIVED`. -/
def SHOWTIME_SIGNAL_RECEIVED : Nat := 0

/-- The enumerator `SHOWTIME_JACK_PORT_REGISTRATION`. -/
def SHOWTIME_JACK_PORT_REGISTRATION : Nat := 1

/-- The enumerator `SHOWTIME_JACK_CLIENT_REGISTRATION`. -/
def SHOWTIME_JACK_CLIENT_REGISTRATION : Nat := 2

/-- The struct `showtime_msg_t`; `type` holds the value of the enum. -/
structure showtime_msg_t where
  type : Nat
  signum : Int
  pid : Int
  port : Nat
  reg : Int
  name : Str
  deriving DecidableEq, Repr

/-- The method `JackConnection::port_by_id`: port ids index the engine's port table; `none`
is the null pointer. -/
def JackConnection.port_by_id (self : JackConnection) (port : Nat) : Option JackPort :=
  self.ports.get? port

/-- The method `JackConnection::port_name(jack_port_id_t)`; an id the engine does not know
hands the null pointer on to `jack_port_name`: no result (`none`). -/
def JackConnection.port_name (self : JackConnection) (port : Nat) : Option PortGlobalName :=
  (self.port_by_id port).map (fun p => p.name)

/-- The `switch` of `ShowTime::run` (lines 542-576) on one received message: the state after
it and the value of `running`, which is `true` when the message is received. -/
def ShowTime.dispatch (self : ShowTime) (msg : showtime_msg_t) : Option (ShowTime × Bool) :=
  if msg.type = SHOWTIME_SIGNAL_RECEIVED then
    let s1 : ShowTime :=
      if msg.signum = SIGCHLD then { self with cm_ := self.cm_.sigchld msg.pid } else self
    let running : Bool := if is_termination_signal msg.signum then false else true
    some (s1, running)
  else if msg.type = SHOWTIME_JACK_PORT_REGISTRATION then
    match self.jc_.port_name msg.port with
    | none => none
    | some port_global_name =>
      if msg.reg ≠ 0 then
        (self.handle_port_registration port_global_name).map (fun s => (s, true))
      else
        some (self, true)
  else if msg.type = SHOWTIME_JACK_CLIENT_REGISTRATION then
    some (self, true)
  else
    none

/-- The loop `while (running)` of `ShowTime::run` over the messages received in order.  When
`running` is false the loop is left and the remaining messages are never received; when the
messages are used up the loop is blocked in `poll` with `running` still true. -/
def run_loop : ShowTime → Bool → List showtime_msg_t → Option (ShowTime × Bool)
  | st, false, _ => some (st, false)
  | st, true, [] => some (st, true)
  | st, true, msg :: rest =>
    match st.dispatch msg with
    | none => none
    | some r => run_loop r.1 r.2 rest

/-- How far `ShowTime::run` got on the messages it was given. -/
inductive RunResult
  | blocked (st : ShowTime) (os : Os)
  | returned (st : ShowTime) (os : Os)
  deriving DecidableEq, Repr

/-- The method `ShowTime::run` from the event loop on (lines 533-579), for the messages
received in order; `self` holds the ChildSet that `discover_children` and `start_children`
(lines 531-532) left, `os` is the process table when the loop is left.  `none` is a `DIE`. -/
def ShowTime.run (self : ShowTime) (os : Os) (msgs : List showtime_msg_t) :
    Option RunResult :=
  match run_loop self true msgs with
  | none => none
  | some (st1, true) => some (RunResult.blocked st1 os)
  | some (st1, false) =>
    let r := st1.cm_.stop_children os
    some (RunResult.returned { st1 with cm_ := r.1.forget_children } r.2)

/-- A signal message carrying a termination signal. -/
def showtime_msg_t.is_termination (m : showtime_msg_t) : Bool :=
  decide (m.type = SHOWTIME_SIGNAL_RECEIVED) && is_termination_signal m.signum

/-- The stop requests a pass over the ChildSet delivers: `SIGTERM` to every child that is
running, in map order. -/
def stop_requests (children : List (Str × Child)) (os : Os) : List (Int × Int) :=
  (children.filter (fun e => e.2.running os)).map (fun e => (e.2.pid_, SIGTERM))

/-! ## Buffer (`src/lib/buffer.c`)

Values of type `uint32_t` are natural numbers below `2^32`; sums are reduced modulo `2^32`
where the source computes them in `uint32_t`.  The memory behind the `data` pointer is a
map from offsets to bytes that extends beyond the buffer: offsets from `capacity` on lie
outside of it. -/

/-- The macro `nearest_multiple_of(a, b)` with `b` of type `uint32_t`:
`((b + (a - 1)) & ~(a - 1))` in 32-bit unsigned arithmetic. -/
def nearest_multiple_of (a b : Nat) : Nat :=
  ((b + (a - 1)) % 2 ^ 32) &&& (2 ^ 32 - 1 - (a - 1))

/-- The struct `zz_buffer_t`; `data` is `none` for the null pointer. -/
structure zz_buffer_t where
  data : Option (Nat → Nat)
  size : Nat
  capacity : Nat
  dynamic : Int

/-- The function `zz_buffer_init`. -/
def zz_buffer_init (data : Option (Nat → Nat)) (size capacity : Nat) (dynamic : Int) :
    zz_buffer_t :=
  { data := data, size := size, capacity := capacity, dynamic := dynamic }

/-- The call `memcpy(dst + off, src, n)` on the memory behind `dst`. -/
def memcpy (mem : Nat → Nat) (off : Nat) (src : Nat → Nat) (n : Nat) : Nat → Nat :=
  fun i => if off ≤ i ∧ i < off + n then src (i - off) else mem i

/-- The function `zz_buffer_resize`: the value returned and the buffer afterwards.
`realloc_ok` tells whether `realloc` answers a block (its old contents kept) or the null
pointer. -/
def zz_buffer_resize (self : zz_buffer_t) (n : Nat) (realloc_ok : Bool) : Nat × zz_buffer_t :=
  if self.dynamic = 0 then (0, self)
  else
    let n1 := nearest_multiple_of 1024 n
    if realloc_ok then
      let s1 : zz_buffer_t :=
        { self with data := some (self.data.getD (fun _ => 0)), capacity := n1 }
      let s2 : zz_buffer_t := if s1.capacity < s1.size then { s1 with size := s1.capacity } else s1
      (s2.capacity, s2)
    else
      (0, { self with data := none })

/-- Lines 69-71 of `zz_buffer_append`: copy, set the size, return the length.  A null `data`
pointer makes the `memcpy` undefined: no result (`none`). -/
def zz_buffer_append_copy (self : zz_buffer_t) (data : Nat → Nat) (size new_size : Nat) :
    Option (Nat × zz_buffer_t) :=
  match self.data with
  | none => none
  | some mem =>
    some (size, { self with data := some (memcpy mem self.size data size), size := new_size })

/-- The function `zz_buffer_append`: the value returned and the buffer afterwards. -/
def zz_buffer_append (self : zz_buffer_t) (data : Nat → Nat) (size : Nat)
    (realloc_ok : Bool) : Option (Nat × zz_buffer_t) :=
  let new_size := (self.size + size) % 2 ^ 32
  if new_size > self.capacity then
    let r := zz_buffer_resize self new_size realloc_ok
    if r.1 = 0 then some (0, r.2)
    else zz_buffer_append_copy r.2 data size new_size
  else
    zz_buffer_append_copy self data size new_size

/-- The constant `MIDI_BUF_SIZE` of `src/zzlua/lib/jack.c`. -/
def MIDI_BUF_SIZE : Nat := 1024

/-! ## Concrete inputs -/

/-- The endpoint `a:x`. -/
def ep_ax : Str := ['a', ':', 'x']

/-- The endpoint `b:y`. -/
def ep_by : Str := ['b', ':', 'y']

/-- The endpoint `c:z`. -/
def ep_cz : Str := ['c', ':', 'z']

/-- The stream `a:x -> b:y  c:z <- b:y  a:x -> b:y`. -/
def ex_triples : List Triple :=
  [⟨ep_ax, Arrow.right, ep_by⟩, ⟨ep_cz, Arrow.left, ep_by⟩, ⟨ep_ax, Arrow.right, ep_by⟩]

/-- A patch holding some earlier rule. -/
def ex_patch : Patch := { connections_ := [(ep_cz, ep_ax)] }

/-- The orchestrator `prefix` with three registered child ports and the given patch. -/
def ex_showtime (rules : List Connection) : ShowTime :=
  { opt_ := { client_global_name_ := "prefix".toList },
    jc_ := { client_name := "prefix".toList,
             ports := [{ name := "prefix.foo:out".toList, type := "audio".toList,
                         flags := JackPortIsOutput },
                       { name := "prefix.synth:out".toList, type := "audio".toList,
                         flags := JackPortIsOutput },
                       { name := "prefix.a.b:out".toList, type := "audio".toList,
                         flags := JackPortIsOutput }],
             log := [],
             answers := [] },
    cm_ := { children_ := [], prefix_ := "prefix".toList },
    patch_ := { connections_ := rules } }

/-- Scenario 1: the patch `foo:out -> bar:in`. -/
def ex_scenario1 : ShowTime := ex_showtime [("foo:out".toList, "bar:in".toList)]

/-- Scenario 2: the patch `synth:out -> :master`. -/
def ex_scenario2 : ShowTime := ex_showtime [("synth:out".toList, ":master".toList)]

/-- The patch `foo:out -> :` `foo:out -> bar:in` on an engine that refuses the next
registration (here the one of the port with the empty name). -/
def ex_refusing : ShowTime :=
  { ex_showtime [("foo:out".toList, ":".toList), ("foo:out".toList, "bar:in".toList)] with
    jc_ := { (ex_showtime []).jc_ with answers := [false] } }

/-- Scenario 4: a patch naming a grandchild's port, `a.b:out -> :master`. -/
def ex_scenario4 : ShowTime := ex_showtime [("a.b:out".toList, ":master".toList)]

/-- Three children, two of them running. -/
def ex_children : ChildManager :=
  { children_ := [("a".toList, { prefix_ := "prefix".toList, client_local_name_ := "a".toList,
                                 pid_ := 11 }),
                  ("b".toList, { prefix_ := "prefix".toList, client_local_name_ := "b".toList,
                                 pid_ := 12 }),
                  ("c".toList, { prefix_ := "prefix".toList, client_local_name_ := "c".toList,
                                 pid_ := 0 })],
    prefix_ := "prefix".toList }

/-- A process table in which the pids 11 and 12 exist. -/
def ex_os : Os := { procs := [11, 12], signals := [] }

/-- The child `b` of `ex_children`, tracking pid 12. -/
def ex_child_b : Child :=
  { prefix_ := "prefix".toList, client_local_name_ := "b".toList, pid_ := 12 }

/-- Scenario 3: the orchestrator of scenario 2 supervising the children of `ex_children`. -/
def ex_scenario3 : ShowTime := { ex_scenario2 with cm_ := ex_children }

/-- A signal message. -/
def msg_signal (signum pid : Int) : showtime_msg_t :=
  { type := SHOWTIME_SIGNAL_RECEIVED, signum := signum, pid := pid, port := 0, reg := 0,
    name := [] }

/-- A port registration message. -/
def msg_port (port : Nat) (reg : Int) : showtime_msg_t :=
  { type := SHOWTIME_JACK_PORT_REGISTRATION, signum := 0, pid := 0, port := port, reg := reg,
    name := [] }

/-- A client registration message. -/
def msg_client (name : Str) (reg : Int) : showtime_msg_t :=
  { type := SHOWTIME_JACK_CLIENT_REGISTRATION, signum := 0, pid := 0, port := 0, reg := reg,
    name := name }

/-- A non-dynamic buffer of capacity `MIDI_BUF_SIZE` holding 10 bytes, over zeroed memory. -/
def ex_buffer : zz_buffer_t :=
  zz_buffer_init (some (fun _ => 0)) 10 MIDI_BUF_SIZE 0

/-- A source of bytes `255`. -/
def ex_bytes : Nat → Nat := fun _ => 255

/-! # Theorems -/

/-! ## Patch -/

theorem findIdx_isSome (c : Char) (s : Str) : (findIdx c s).isSome = true ↔ c ∈ s := by
  induction s with
  | nil => simp [findIdx]
  | cons x xs ih =>
    by_cases h : x = c
    · simp [findIdx, h]
    · have h' : ¬ c = x := fun e => h e.symm
      simp [findIdx, h, h', ih]

theorem find_zero_isSome (s : Str) (c : Char) : (find s c 0).isSome = true ↔ c ∈ s := by
  simp [find, findIdx_isSome]

theorem foldl_src_acc (d : PortLocalName) (cs : List Connection) (acc : List PortLocalName) :
    cs.foldl (fun result c => if c.2 = d then result ++ [c.1] else result) acc
      = acc ++ (cs.filter (fun c => decide (c.2 = d))).map Prod.fst := by
  induction cs generalizing acc with
  | nil => simp
  | cons c cs ih =>
    by_cases h : c.2 = d
    · simp [List.foldl_cons, ih, h]
    · simp [List.foldl_cons, ih, h]

theorem foldl_dst_acc (s : PortLocalName) (cs : List Connection) (acc : List PortLocalName) :
    cs.foldl (fun result c => if c.1 = s then result ++ [c.2] else result) acc
      = acc ++ (cs.filter (fun c => decide (c.1 = s))).map Prod.snd := by
  induction cs generalizing acc with
  | nil => simp
  | cons c cs ih =>
    by_cases h : c.1 = s
    · simp [List.foldl_cons, ih, h]
    · simp [List.foldl_cons, ih, h]

theorem get_src_eq (p : Patch) (d : PortLocalName) :
    p.get_src_ports_for_dst d
      = (p.connections_.filter (fun c => decide (c.2 = d))).map Prod.fst := by
  simp [Patch.get_src_ports_for_dst, foldl_src_acc]

theorem get_dst_eq (p : Patch) (s : PortLocalName) :
    p.get_dst_ports_for_src s
      = (p.connections_.filter (fun c => decide (c.1 = s))).map Prod.snd := by
  simp [Patch.get_dst_ports_for_src, foldl_dst_acc]

theorem reload_body_right_arrow (v : ReloadVars) :
    reload_body v right_arrow_token = some { v with st := State.RIGHT_ARROW } := by
  have e : (find right_arrow_token ':' 0).isSome = false := by decide
  simp [reload_body, reload_classify, reload_emit, e]

theorem reload_body_left_arrow (v : ReloadVars) :
    reload_body v left_arrow_token = some { v with st := State.LEFT_ARROW } := by
  have e : (find left_arrow_token ':' 0).isSome = false := by decide
  have e2 : left_arrow_token ≠ right_arrow_token := by decide
  simp [reload_body, reload_classify, reload_emit, e, e2]

theorem reload_body_endpoint (v : ReloadVars) (item : Str) (h : ':' ∈ item) :
    reload_body v item =
      some (match v.st with
        | State.START => { v with src := item, st := State.LHS_ASSIGNED }
        | State.RIGHT_ARROW =>
          { v with dst := item, st := State.START,
                   connections_ := v.connections_ ++ [(v.src, item)] }
        | State.LEFT_ARROW =>
          { v with dst := v.src, src := item, st := State.START,
                   connections_ := v.connections_ ++ [(item, v.src)] }
        | _ => reload_emit v) := by
  have hf := (find_zero_isSome item ':').2 h
  obtain ⟨src, dst, st, cs⟩ := v
  cases st <;> simp [reload_body, reload_classify, reload_emit, hf]

theorem mem_colon_ne_nil {s : Str} (h : ':' ∈ s) : s ≠ [] := by
  intro e; rw [e] at h; simp at h

/-- Reading one well-formed triple in state `START` emits its rule and returns to `START`. -/
theorem reload_loop_triple (v : ReloadVars) (t : Triple) (hst : v.st = State.START)
    (hwf : t.wf) (rest : List Str) :
    ∃ w : ReloadVars, w.st = State.START ∧
      w.connections_ = v.connections_ ++ [t.rule] ∧
      reload_loop v (t.lhs :: t.arrow.token :: t.rhs :: rest) = reload_loop w rest := by
  obtain ⟨hl, hr⟩ := hwf
  obtain ⟨lhs, arrow, rhs⟩ := t
  obtain ⟨src, dst, st, cs⟩ := v
  simp only at hl hr hst
  subst hst
  have hl0 := mem_colon_ne_nil hl
  have hr0 := mem_colon_ne_nil hr
  cases arrow
  · refine ⟨{ src := lhs, dst := rhs, st := State.START,
              connections_ := cs ++ [(lhs, rhs)] }, rfl, rfl, ?_⟩
    have ha : right_arrow_token ≠ [] := by decide
    simp [reload_loop, hl0, hr0, ha, Arrow.token, reload_body_endpoint _ _ hl,
      reload_body_endpoint _ _ hr, reload_body_right_arrow]
  · refine ⟨{ src := rhs, dst := lhs, st := State.START,
              connections_ := cs ++ [(rhs, lhs)] }, rfl, rfl, ?_⟩
    have ha : left_arrow_token ≠ [] := by decide
    simp [reload_loop, hl0, hr0, ha, Arrow.token, reload_body_endpoint _ _ hl,
      reload_body_endpoint _ _ hr, reload_body_left_arrow]

/-- Reading a well-formed stream in state `START` emits the rules of its triples in order. -/
theorem reload_loop_stream (ts : List Triple) (hwf : ∀ t ∈ ts, t.wf) :
    ∀ (v : ReloadVars), v.st = State.START → ∀ rest : List Str,
    ∃ w : ReloadVars, w.st = State.START ∧
      w.connections_ = v.connections_ ++ ts.map Triple.rule ∧
      reload_loop v (stream_of ts ++ rest) = reload_loop w rest := by
  induction ts with
  | nil => intro v hst rest; exact ⟨v, hst, by simp, by simp [stream_of]⟩
  | cons t ts ih =>
    intro v hst rest
    obtain ⟨w1, h1, c1, e1⟩ :=
      reload_loop_triple v t hst (hwf t (List.mem_cons_self _ _)) (stream_of ts ++ rest)
    obtain ⟨w2, h2, c2, e2⟩ :=
      ih (fun u hu => hwf u (List.mem_cons_of_mem _ hu)) w1 h1 rest
    refine ⟨w2, h2, ?_, ?_⟩
    · rw [c2, c1]; simp
    · simp only [stream_of, List.cons_append]
      rw [e1, e2]

theorem stream_of_append (ts us : List Triple) :
    stream_of (ts ++ us) = stream_of ts ++ stream_of us := by
  induction ts with
  | nil => simp [stream_of]
  | cons t ts ih => simp [stream_of, ih]

theorem items_read_stream_of (ts : List Triple) :
    items_read (stream_of ts) =
      stream_of ts ++ (match ts.getLast? with | none => [] | some t => [t.rhs]) := by
  induction ts using List.reverseRecOn with
  | nil => simp [stream_of, items_read]
  | append_singleton ts t _ =>
    simp [stream_of_append, stream_of, items_read]

/-- The rule sequence `Patch::reload` leaves behind on a well-formed stream. -/
theorem reload_stream_of (p : Patch) (ts : List Triple) (hwf : ∀ t ∈ ts, t.wf) :
    p.reload (stream_of ts) = some { connections_ := ts.map Triple.rule } := by
  obtain ⟨w, hw, hc, he⟩ := reload_loop_stream ts hwf
    { src := [], dst := [], st := State.START, connections_ := [] } rfl
    (match ts.getLast? with | none => [] | some t => [t.rhs])
  simp only [Patch.reload, items_read_stream_of, he]
  cases hl : ts.getLast? with
  | none => simp [reload_loop, hc]
  | some t =>
    have htm : t ∈ ts := List.mem_of_getLast?_eq_some hl
    have hr := (hwf t htm).2
    obtain ⟨src, dst, st, cs⟩ := w
    simp only at hw hc
    subst hw
    simp [reload_loop, mem_colon_ne_nil hr, reload_body_endpoint _ _ hr, hc]

/-- A stream of non-empty tokens holding a token that is neither an endpoint nor an arrow
makes the loop of `Patch::reload` die, whatever comes after it. -/
theorem reload_loop_unrecognized (items : List Str) (hne : ∀ t ∈ items, t ≠ [])
    (bad : Str) (hmem : bad ∈ items) (hbad : ¬ recognized bad) :
    ∀ v : ReloadVars, reload_loop v items = none := by
  induction items with
  | nil => simp at hmem
  | cons item rest ih =>
    intro v
    have h0 : item ≠ [] := hne item (List.mem_cons_self _ _)
    rcases List.mem_cons.1 hmem with e | hin
    · subst e
      have hc : (find bad ':' 0).isSome = false := by
        cases hf : (find bad ':' 0).isSome with
        | false => rfl
        | true => exact absurd (Or.inl ((find_zero_isSome bad ':').1 hf)) hbad
      have hr : bad ≠ right_arrow_token := fun e => hbad (Or.inr (Or.inl e))
      have hl : bad ≠ left_arrow_token := fun e => hbad (Or.inr (Or.inr e))
      simp [reload_loop, h0, reload_body, reload_classify, hc, hr, hl]
    · have ih2 := ih (fun t ht => hne t (List.mem_cons_of_mem _ ht)) hin
      simp only [reload_loop, h0, if_false]
      cases reload_body v item with
      | none => rfl
      | some w => simpa using ih2 w

theorem mem_items_read {toks : List Str} {t : Str} (h : t ∈ items_read toks) : t ∈ toks := by
  unfold items_read at h
  cases hl : toks.getLast? with
  | none => simp [hl] at h
  | some u =>
    simp only [hl, List.mem_append, List.mem_singleton] at h
    rcases h with h | h
    · exact h
    · subst h; exact List.mem_of_getLast?_eq_some hl

theorem subset_items_read {toks : List Str} {t : Str} (h : t ∈ toks) : t ∈ items_read toks := by
  unfold items_read
  cases hl : toks.getLast? with
  | none =>
    have : toks = [] := List.getLast?_eq_none_iff.1 hl
    subst this; simp at h
  | some u => simp [h]

/-- C1: after `Patch::reload` has parsed a well-formed token stream (a sequence of
`ENDPOINT -> ENDPOINT` / `ENDPOINT <- ENDPOINT` triples whose endpoints contain `:`),
`get_src_ports_for_dst d` is, for every `d`, the emitted rule sequence filtered on
second component `= d` and projected to the first component. -/
theorem C1_sources_after_reload (p : Patch) (ts : List Triple) (hwf : ∀ t ∈ ts, t.wf) :
    ∃ q : Patch, p.reload (stream_of ts) = some q ∧
      q.connections_ = ts.map Triple.rule ∧
      ∀ d : PortLocalName, q.get_src_ports_for_dst d
        = ((ts.map Triple.rule).filter (fun c => decide (c.2 = d))).map Prod.fst :=
  ⟨{ connections_ := ts.map Triple.rule }, reload_stream_of p ts hwf, rfl,
    fun d => get_src_eq _ d⟩

theorem ex_triples_wf : ∀ t ∈ ex_triples, t.wf := by
  intro t ht
  simp only [ex_triples, List.mem_cons, List.mem_singleton, List.not_mem_nil, or_false] at ht
  rcases ht with rfl | rfl | rfl <;> exact ⟨by decide, by decide⟩

/-- C1 at the stream `a:x -> b:y  c:z <- b:y  a:x -> b:y`. -/
theorem C1_sources_after_reload_witness :
    (∀ t ∈ ex_triples, t.wf) ∧
    ∃ q : Patch, ex_patch.reload (stream_of ex_triples) = some q ∧
      q.connections_ = ex_triples.map Triple.rule ∧
      ∀ d : PortLocalName, q.get_src_ports_for_dst d
        = ((ex_triples.map Triple.rule).filter (fun c => decide (c.2 = d))).map Prod.fst :=
  ⟨ex_triples_wf, C1_sources_after_reload ex_patch ex_triples ex_triples_wf⟩

/-- C2 (as the code has it): a stream of (non-empty) tokens that holds a token which is
neither an endpoint nor `->` / `<-` makes `Patch::reload` fail with the parse error; no rule
set results. -/
theorem C2_unrecognized_token_fails (p : Patch) (toks : List Str)
    (hne : ∀ t ∈ toks, t ≠ []) (bad : Str) (hmem : bad ∈ toks) (hbad : ¬ recognized bad) :
    p.reload toks = none := by
  have h := reload_loop_unrecognized (items_read toks)
    (fun t ht => hne t (mem_items_read ht)) bad (subset_items_read hmem) hbad
  simp [Patch.reload, h]

/-- C2 (as the code has it) at the stream `a:x -> b:y foo`. -/
theorem C2_unrecognized_token_fails_witness :
    ex_patch.reload [ep_ax, right_arrow_token, ep_by, ['f', 'o', 'o']] = none :=
  C2_unrecognized_token_fails ex_patch [ep_ax, right_arrow_token, ep_by, ['f', 'o', 'o']]
    (by decide) ['f', 'o', 'o'] (by decide) (by unfold recognized; decide)

/-- C2 fails as stated: the stream `a:x b:y -> c:z` (two consecutive endpoints) loads and
emits the rule `(a:x, c:z)`, and the stream `-> a:x` (an arrow with no prior endpoint) loads
and emits a rule with the empty source. -/
theorem C2_counterexample :
    ex_patch.reload [ep_ax, ep_by, right_arrow_token, ep_cz]
        = some { connections_ := [(ep_ax, ep_cz)] } ∧
    ex_patch.reload [right_arrow_token, ep_ax]
        = some { connections_ := [([], ep_ax)] } := by
  decide

/-- C4: on `a -> b` the rule `(a, b)` is emitted, on `a <- b` the rule `(b, a)`, and on a
concatenation of such triples the rules of the triples, in order. -/
theorem C4_arrow_roles (p : Patch) (a b : Str) (ha : ':' ∈ a) (hb : ':' ∈ b)
    (ts : List Triple) (hwf : ∀ t ∈ ts, t.wf) :
    p.reload [a, right_arrow_token, b] = some { connections_ := [(a, b)] } ∧
    p.reload [a, left_arrow_token, b] = some { connections_ := [(b, a)] } ∧
    p.reload (stream_of ts) = some { connections_ := ts.map Triple.rule } := by
  refine ⟨?_, ?_, reload_stream_of p ts hwf⟩
  · have h := reload_stream_of p [⟨a, Arrow.right, b⟩]
      (by intro t ht; simp only [List.mem_singleton] at ht; subst ht; exact ⟨ha, hb⟩)
    simpa [stream_of, Arrow.token, Triple.rule] using h
  · have h := reload_stream_of p [⟨a, Arrow.left, b⟩]
      (by intro t ht; simp only [List.mem_singleton] at ht; subst ht; exact ⟨ha, hb⟩)
    simpa [stream_of, Arrow.token, Triple.rule] using h

/-- C4 at the endpoints `a:x`, `b:y` and the stream `a:x -> b:y  c:z <- b:y  a:x -> b:y`. -/
theorem C4_arrow_roles_witness :
    ex_patch.reload [ep_ax, right_arrow_token, ep_by] = some { connections_ := [(ep_ax, ep_by)] } ∧
    ex_patch.reload [ep_ax, left_arrow_token, ep_by] = some { connections_ := [(ep_by, ep_ax)] } ∧
    ex_patch.reload (stream_of ex_triples)
      = some { connections_ := [(ep_ax, ep_by), (ep_by, ep_cz), (ep_ax, ep_by)] } :=
  C4_arrow_roles ex_patch ep_ax ep_by (by decide) (by decide) ex_triples ex_triples_wf

/-- C5: for every rule `(s, d)` held by the patch, `d` is among `get_dst_ports_for_src s`
and `s` among `get_src_ports_for_dst d`, and every element either query returns comes from
such a rule. -/
theorem C5_queries_inverse (p : Patch) (s d : PortLocalName) :
    (d ∈ p.get_dst_ports_for_src s ↔ (s, d) ∈ p.connections_) ∧
    (s ∈ p.get_src_ports_for_dst d ↔ (s, d) ∈ p.connections_) := by
  rw [get_dst_eq, get_src_eq]
  constructor
  · constructor
    · intro h
      obtain ⟨c, hc, rfl⟩ := List.mem_map.1 h
      obtain ⟨hm, he⟩ := List.mem_filter.1 hc
      have he2 : c.1 = s := by simpa using he
      rw [← he2]; exact hm
    · intro h
      exact List.mem_map.2 ⟨(s, d), List.mem_filter.2 ⟨h, by simp⟩, rfl⟩
  · constructor
    · intro h
      obtain ⟨c, hc, rfl⟩ := List.mem_map.1 h
      obtain ⟨hm, he⟩ := List.mem_filter.1 hc
      have he2 : c.2 = d := by simpa using he
      rw [← he2]; exact hm
    · intro h
      exact List.mem_map.2 ⟨(s, d), List.mem_filter.2 ⟨h, by simp⟩, rfl⟩

/-! ## The engine and the auto-wiring loops -/

theorem charAt_zero_colon (e : Str) : charAt e 0 = ':' ↔ ∃ n, e = ':' :: n := by
  cases e with
  | nil =>
    have : charAt [] 0 ≠ ':' := by decide
    simp [this]
  | cons c n => simp [charAt]

theorem wire_dsts_eq_wire (st : ShowTime) (ty : Str) (fl : Nat) (g : PortGlobalName)
    (l : List PortLocalName) :
    ∀ jc, st.wire_dsts ty fl g jc l = st.wire ty fl g true jc l := by
  induction l with
  | nil => intro jc; rfl
  | cons e rest ih =>
    intro jc
    simp only [ShowTime.wire_dsts, ShowTime.wire, ih, JackConnection.connect,
      ShowTime.request, if_true]

theorem wire_srcs_eq_wire (st : ShowTime) (ty : Str) (fl : Nat) (g : PortGlobalName)
    (l : List PortLocalName) :
    ∀ jc, st.wire_srcs ty fl g jc l = st.wire ty fl g false jc l := by
  induction l with
  | nil => intro jc; rfl
  | cons e rest ih =>
    intro jc
    simp [ShowTime.wire_srcs, ShowTime.wire, ih, JackConnection.connect,
      ShowTime.request]

theorem ensure_not_boundary (st : ShowTime) (jc : JackConnection) (ty : Str) (fl : Nat)
    (e : PortLocalName) (h : ¬ ∃ n, e = ':' :: n) :
    st.ensure_boundary_port jc ty fl e = some jc := by
  have : charAt e 0 ≠ ':' := fun hc => h ((charAt_zero_colon e).1 hc)
  simp [ShowTime.ensure_boundary_port, this]

theorem ensure_existing (st : ShowTime) (jc : JackConnection) (ty : Str) (fl : Nat)
    (n : PortName) (h : jc.port_exists (st.opt_.client_global_name_ ++ ':' :: n) = true) :
    st.ensure_boundary_port jc ty fl (':' :: n) = some jc := by
  simp [ShowTime.ensure_boundary_port, charAt, substr, h]

theorem ensure_new (st : ShowTime) (jc : JackConnection) (ty : Str) (fl : Nat)
    (n : PortName) (hopen : jc.client_name = st.opt_.client_global_name_)
    (h : jc.port_exists (st.opt_.client_global_name_ ++ ':' :: n) = false)
    (hgrant : jc.answers.headD true = true) :
    st.ensure_boundary_port jc ty fl (':' :: n) =
      some { jc with
        log := jc.log ++ [JackCmd.port_register n ty (opposite_flags fl)],
        ports := jc.ports ++ [{ name := st.opt_.client_global_name_ ++ ':' :: n,
                                type := ty, flags := opposite_flags fl }],
        answers := jc.answers.tail } := by
  rw [List.headD_eq_head?_getD] at hgrant
  simp [ShowTime.ensure_boundary_port, charAt, substr, h, JackConnection.port_register, hopen,
    hgrant]

/-- A refused registration is the failed `CHECK`. -/
theorem ensure_refused (st : ShowTime) (jc : JackConnection) (ty : Str) (fl : Nat)
    (n : PortName) (hopen : jc.client_name = st.opt_.client_global_name_)
    (h : jc.port_exists (st.opt_.client_global_name_ ++ ':' :: n) = false)
    (hrefuse : jc.answers.headD true = false) :
    st.ensure_boundary_port jc ty fl (':' :: n) = none := by
  rw [List.headD_eq_head?_getD] at hrefuse
  simp [ShowTime.ensure_boundary_port, charAt, substr, h, JackConnection.port_register, hopen,
    hrefuse]

theorem port_by_name_push (jc jc1 : JackConnection) (p : JackPort)
    (hp : jc1.ports = jc.ports ++ [p])
    (x : PortGlobalName) (q : JackPort) (h : jc.port_by_name x = some q) :
    jc1.port_by_name x = some q := by
  simp only [JackConnection.port_by_name] at h ⊢
  rw [hp, List.find?_append, h]; rfl

theorem port_exists_push (jc jc1 : JackConnection) (p : JackPort)
    (hp : jc1.ports = jc.ports ++ [p]) (x : PortGlobalName) :
    jc1.port_exists x = (jc.port_exists x || decide (p.name = x)) := by
  simp only [JackConnection.port_exists, JackConnection.port_by_name, hp, List.find?_append]
  cases h : List.find? (fun p => decide (p.name = x)) jc.ports with
  | some q => simp
  | none =>
    by_cases e : p.name = x <;> simp [List.find?_cons, e]

theorem port_by_name_new (jc jc1 : JackConnection) (p : JackPort)
    (hp : jc1.ports = jc.ports ++ [p]) (h : jc.port_exists p.name = false) :
    jc1.port_by_name p.name = some p := by
  have hnone : List.find? (fun q => decide (q.name = p.name)) jc.ports = none := by
    simp only [JackConnection.port_exists, JackConnection.port_by_name] at h
    cases hf : List.find? (fun q => decide (q.name = p.name)) jc.ports with
    | none => rfl
    | some q => rw [hf] at h; simp at h
  simp only [JackConnection.port_by_name, hp, List.find?_append, hnone]
  simp [List.find?_cons]

/-- One pass of the boundary-port block that gets past the `CHECK`: what it leaves behind. -/
theorem ensure_spec (st : ShowTime) (jc jc1 : JackConnection) (ty : Str) (fl : Nat)
    (e : PortLocalName) (hopen : jc.client_name = st.opt_.client_global_name_)
    (hrun : st.ensure_boundary_port jc ty fl e = some jc1) :
    jc1.client_name = st.opt_.client_global_name_ ∧
    (∃ cmds, jc1.log = jc.log ++ cmds ∧ (∀ c ∈ cmds, c.is_connect = false) ∧
      (∀ n, e = ':' :: n →
        jc.port_exists (st.opt_.client_global_name_ ++ ':' :: n) = false →
        cmds = [JackCmd.port_register n ty (opposite_flags fl)] ∧
        jc1.port_by_name (st.opt_.client_global_name_ ++ ':' :: n)
          = some { name := st.opt_.client_global_name_ ++ ':' :: n, type := ty,
                   flags := opposite_flags fl })) ∧
    (∀ x q, jc.port_by_name x = some q → jc1.port_by_name x = some q) ∧
    (∀ n, e = ':' :: n → jc1.port_exists (st.opt_.client_global_name_ ++ ':' :: n) = true) ∧
    (∀ y, jc.port_exists y = false →
      (∀ n, e = ':' :: n → y ≠ st.opt_.client_global_name_ ++ ':' :: n) →
      jc1.port_exists y = false) ∧
    (jc.answers = jc1.answers ∨ jc.answers.tail = jc1.answers) := by
  by_cases hb : ∃ n, e = ':' :: n
  · obtain ⟨n, rfl⟩ := hb
    cases hx : jc.port_exists (st.opt_.client_global_name_ ++ ':' :: n) with
    | true =>
      rw [ensure_existing st jc ty fl n hx] at hrun
      cases hrun
      refine ⟨hopen, ⟨[], by simp, by simp, ?_⟩, fun _ _ h => h, ?_, fun _ h _ => h, Or.inl rfl⟩
      · intro m hm habs
        cases hm
        rw [hx] at habs; cases habs
      · intro m hm
        cases hm
        exact hx
    | false =>
      cases hg : jc.answers.headD true with
      | false =>
        rw [ensure_refused st jc ty fl n hopen hx hg] at hrun
        cases hrun
      | true =>
        rw [ensure_new st jc ty fl n hopen hx hg] at hrun
        cases hrun
        refine ⟨hopen, ⟨[JackCmd.port_register n ty (opposite_flags fl)], rfl, ?_, ?_⟩,
          ?_, ?_, ?_, Or.inr rfl⟩
        · intro c hc
          simp only [List.mem_singleton] at hc
          subst hc; rfl
        · intro m hm _
          cases hm
          exact ⟨rfl, port_by_name_new jc _
            { name := st.opt_.client_global_name_ ++ ':' :: n, type := ty,
              flags := opposite_flags fl } rfl hx⟩
        · intro x q h
          exact port_by_name_push jc _ _ rfl x q h
        · intro m hm
          cases hm
          rw [port_exists_push jc _ _ rfl]; simp
        · intro y hy hne
          rw [port_exists_push jc _ _ rfl, hy]
          have := hne n rfl
          simp [Ne.symm this]
  · rw [ensure_not_boundary st jc ty fl e hb] at hrun
    cases hrun
    refine ⟨hopen, ⟨[], by simp, by simp, ?_⟩, fun _ _ h => h, ?_, fun _ h _ => h, Or.inl rfl⟩
    · intro n hn
      exact absurd ⟨n, hn⟩ hb
    · intro n hn
      exact absurd ⟨n, hn⟩ hb

/-- On an engine that grants what it is asked, the boundary-port block gets past the
`CHECK`. -/
theorem ensure_total (st : ShowTime) (jc : JackConnection) (ty : Str) (fl : Nat)
    (e : PortLocalName) (hopen : jc.client_name = st.opt_.client_global_name_)
    (hgrant : ∀ a ∈ jc.answers, a = true) :
    ∃ jc1, st.ensure_boundary_port jc ty fl e = some jc1 ∧ ∀ a ∈ jc1.answers, a = true := by
  by_cases hb : ∃ n, e = ':' :: n
  · obtain ⟨n, rfl⟩ := hb
    cases hx : jc.port_exists (st.opt_.client_global_name_ ++ ':' :: n) with
    | true => exact ⟨jc, ensure_existing st jc ty fl n hx, hgrant⟩
    | false =>
      have hg : jc.answers.headD true = true := by
        cases ha : jc.answers with
        | nil => rfl
        | cons a rest =>
          have := hgrant a (by rw [ha]; exact List.mem_cons_self _ _)
          simp [this]
      refine ⟨_, ensure_new st jc ty fl n hopen hx hg, ?_⟩
      intro a ha
      exact hgrant a (List.mem_of_mem_tail ha)
  · exact ⟨jc, ensure_not_boundary st jc ty fl e hb, hgrant⟩

/-- A loop of `handle_port_registration` that runs to its end, over any list of matched
endpoints: it issues one connection request per endpoint in order, only adds ports, and
leaves every boundary endpoint of the list existing. -/
theorem wire_spec (st : ShowTime) (ty : Str) (fl : Nat) (g : PortGlobalName) (b : Bool)
    (l : List PortLocalName) :
    ∀ jc jc1 : JackConnection, jc.client_name = st.opt_.client_global_name_ →
    st.wire ty fl g b jc l = some jc1 →
      jc1.client_name = st.opt_.client_global_name_ ∧
      (∃ new, jc1.log = jc.log ++ new ∧
        new.filter JackCmd.is_connect = l.map (st.request g b)) ∧
      (∀ x q, jc.port_by_name x = some q → jc1.port_by_name x = some q) ∧
      (∀ n, (':' :: n) ∈ l →
        jc1.port_exists (st.opt_.client_global_name_ ++ ':' :: n) = true) ∧
      (∀ y, jc.port_exists y = false →
        (∀ n, (':' :: n) ∈ l → y ≠ st.opt_.client_global_name_ ++ ':' :: n) →
        jc1.port_exists y = false) := by
  induction l with
  | nil =>
    intro jc jc1 hopen hrun
    simp only [ShowTime.wire, Option.some.injEq] at hrun
    subst hrun
    exact ⟨hopen, ⟨[], by simp, by simp⟩, fun _ _ h => h, by simp, fun _ h _ => h⟩
  | cons e rest ih =>
    intro jc jc2 hopen hrun
    simp only [ShowTime.wire] at hrun
    cases he : st.ensure_boundary_port jc ty fl e with
    | none => simp [he] at hrun
    | some jc1 =>
      simp only [he, Option.some_bind] at hrun
      obtain ⟨ho1, ⟨cmds, hl1, hc1, _⟩, hm1, hx1, ha1, _⟩ :=
        ensure_spec st jc jc1 ty fl e hopen he
      obtain ⟨ho2, ⟨new, hl2, hc2⟩, hm2, hx2, ha2⟩ :=
        ih { jc1 with log := jc1.log ++ [st.request g b e] } jc2 ho1 hrun
      refine ⟨ho2, ⟨cmds ++ [st.request g b e] ++ new, ?_, ?_⟩, ?_, ?_, ?_⟩
      · rw [hl2]; simp only [hl1, List.append_assoc]
      · have hf : cmds.filter JackCmd.is_connect = [] := by
          rw [List.filter_eq_nil_iff]
          intro c hc; simp [hc1 c hc]
        have hr : (st.request g b e).is_connect = true := by
          cases b <;> rfl
        simp [List.filter_append, hf, hr, hc2]
      · intro x q h
        exact hm2 x q (hm1 x q h)
      · intro n hn
        rcases List.mem_cons.1 hn with hn | hn
        · have h3 := hx1 n hn.symm
          simp only [JackConnection.port_exists, Option.isSome_iff_exists] at h3 ⊢
          obtain ⟨q, hq⟩ := h3
          exact ⟨q, hm2 _ q hq⟩
        · exact hx2 n hn
      · intro y hy hne
        apply ha2 y
        · exact ha1 y hy (fun n hn => hne n (by rw [hn]; exact List.mem_cons_self _ _))
        · intro n hn
          exact hne n (List.mem_cons_of_mem _ hn)

/-- On an engine that grants what it is asked, a loop of `handle_port_registration` runs to
its end. -/
theorem wire_total (st : ShowTime) (ty : Str) (fl : Nat) (g : PortGlobalName) (b : Bool)
    (l : List PortLocalName) :
    ∀ jc : JackConnection, jc.client_name = st.opt_.client_global_name_ →
    (∀ a ∈ jc.answers, a = true) →
    ∃ jc1, st.wire ty fl g b jc l = some jc1 ∧
      jc1.client_name = st.opt_.client_global_name_ ∧ ∀ a ∈ jc1.answers, a = true := by
  induction l with
  | nil => intro jc hopen hgrant; exact ⟨jc, rfl, hopen, hgrant⟩
  | cons e rest ih =>
    intro jc hopen hgrant
    obtain ⟨jc1, he, hg1⟩ := ensure_total st jc ty fl e hopen hgrant
    have ho1 := (ensure_spec st jc jc1 ty fl e hopen he).1
    obtain ⟨jc2, h2, ho2, hg2⟩ :=
      ih { jc1 with log := jc1.log ++ [st.request g b e] } ho1 hg1
    exact ⟨jc2, by simp only [ShowTime.wire, he, Option.some_bind, h2], ho2, hg2⟩

/-- When every boundary endpoint of the list already exists, a loop of
`handle_port_registration` issues the connection requests and nothing else. -/
theorem wire_existing (st : ShowTime) (ty : Str) (fl : Nat) (g : PortGlobalName) (b : Bool)
    (l : List PortLocalName) :
    ∀ jc : JackConnection,
    (∀ n, (':' :: n) ∈ l → jc.port_exists (st.opt_.client_global_name_ ++ ':' :: n) = true) →
    st.wire ty fl g b jc l = some { jc with log := jc.log ++ l.map (st.request g b) } := by
  induction l with
  | nil => intro jc _; simp [ShowTime.wire]
  | cons e rest ih =>
    intro jc hex
    have h1 : st.ensure_boundary_port jc ty fl e = some jc := by
      by_cases hb : ∃ n, e = ':' :: n
      · obtain ⟨n, rfl⟩ := hb
        exact ensure_existing st jc ty fl n (hex n (List.mem_cons_self _ _))
      · exact ensure_not_boundary st jc ty fl e hb
    have h2 := ih { jc with log := jc.log ++ [st.request g b e] }
      (fun n hn => hex n (List.mem_cons_of_mem _ hn))
    simp only [ShowTime.wire, h1, Option.some_bind, h2]
    simp

theorem wire_append (st : ShowTime) (ty : Str) (fl : Nat) (g : PortGlobalName) (b : Bool)
    (l1 l2 : List PortLocalName) :
    ∀ jc : JackConnection, st.wire ty fl g b jc (l1 ++ l2)
      = (st.wire ty fl g b jc l1).bind (fun j => st.wire ty fl g b j l2) := by
  induction l1 with
  | nil => intro jc; simp [ShowTime.wire]
  | cons e rest ih =>
    intro jc
    simp only [List.cons_append, ShowTime.wire]
    cases st.ensure_boundary_port jc ty fl e with
    | none => rfl
    | some j => simp [ih]

/-! ## Names and `handle_port_registration` -/

theorem findIdx_eq_none (c : Char) (s : Str) : findIdx c s = none ↔ c ∉ s := by
  rw [← findIdx_isSome]
  cases findIdx c s <;> simp

theorem find_isNone (s : Str) (c : Char) (pos : Nat) :
    (find s c pos).isNone = true ↔ c ∉ s.drop pos := by
  rw [← findIdx_eq_none]
  unfold find
  cases findIdx c (s.drop pos) <;> simp

theorem client_part_eq_take (g : PortGlobalName) : ∃ k, client_part g = g.take k := by
  unfold client_part substr0
  cases find g ':' 0 with
  | none => exact ⟨g.length, by simp⟩
  | some k => exact ⟨k, rfl⟩

theorem getD_take_of_lt (s : Str) (k i : Nat) (d : Char) (h : i < (s.take k).length) :
    (s.take k).getD i d = s.getD i d := by
  have hk : i < k := by
    have := List.length_take_le k s
    omega
  simp [List.getD_eq_getElem?_getD, List.getElem?_take, hk]

/-- The test `is_our_child` spelled out. -/
theorem is_our_child_iff (st : ShowTime) (n : ClientGlobalName) :
    st.is_our_child n = true ↔
      n.length > st.opt_.client_global_name_.length ∧
      n.take st.opt_.client_global_name_.length = st.opt_.client_global_name_ ∧
      charAt n st.opt_.client_global_name_.length = '.' ∧
      '.' ∉ n.drop (st.opt_.client_global_name_.length + 1) := by
  simp only [ShowTime.is_our_child, Bool.and_eq_true, decide_eq_true_eq, find_isNone]
  tauto

theorem is_our_child_iff_child_form (st : ShowTime) (n : ClientGlobalName) :
    st.is_our_child n = true ↔ st.child_form n := by
  rw [is_our_child_iff]
  constructor
  · rintro ⟨hlen, htake, hchar, hdot⟩
    refine ⟨n.drop (st.opt_.client_global_name_.length + 1), ?_, hdot⟩
    have h1 : n = n.take st.opt_.client_global_name_.length
        ++ n.drop st.opt_.client_global_name_.length := (List.take_append_drop _ _).symm
    have h2 : n.drop st.opt_.client_global_name_.length
        = '.' :: n.drop (st.opt_.client_global_name_.length + 1) := by
      rw [List.drop_eq_getElem_cons hlen]
      congr 1
      simpa [charAt, List.getD_eq_getElem?_getD, List.getElem?_eq_getElem hlen] using hchar
    rw [htake, h2] at h1
    exact h1
  · rintro ⟨seg, rfl, hdot⟩
    refine ⟨by simp, by simp, ?_, ?_⟩
    · have hlt : st.opt_.client_global_name_.length
          < (st.opt_.client_global_name_ ++ '.' :: seg).length := by simp
      simp only [charAt, List.getD_eq_getElem?_getD, List.getElem?_eq_getElem hlt,
        Option.getD_some]
      rw [List.getElem_append_right (le_refl _)]
      simp
    · have : List.drop (st.opt_.client_global_name_.length + 1)
          (st.opt_.client_global_name_ ++ '.' :: seg) = seg := by
        rw [List.drop_append_eq_append_drop]
        simp
      rw [this]; exact hdot

/-- A port whose client part passes `is_our_child` is long enough for the local form to exist
and carries the delimiter right after our name. -/
theorem child_port_shape (st : ShowTime) (g : PortGlobalName)
    (hchild : st.is_our_child (client_part g) = true) :
    st.opt_.client_global_name_.length < g.length ∧
      charAt g st.opt_.client_global_name_.length = '.' := by
  obtain ⟨hlen, _, hchar, _⟩ := (is_our_child_iff st _).1 hchild
  obtain ⟨k, hk⟩ := client_part_eq_take g
  rw [hk] at hlen hchar
  have hle : (g.take k).length ≤ g.length := by
    rw [List.length_take]; exact Nat.min_le_right _ _
  refine ⟨by omega, ?_⟩
  unfold charAt at hchar ⊢
  rw [getD_take_of_lt g k _ _ hlen] at hchar
  exact hchar

theorem global_to_local_child (st : ShowTime) (g : PortGlobalName)
    (hchild : st.is_our_child (client_part g) = true) :
    st.port_name_global_to_local g = some (st.local_of g) := by
  have h := (child_port_shape st g hchild).1
  have : st.opt_.client_global_name_.length + 1 ≤ g.length := h
  simp [ShowTime.port_name_global_to_local, substr, this, ShowTime.local_of]

/-- The body of `handle_port_registration` for a registered port of a direct child. -/
theorem handle_child (st : ShowTime) (g : PortGlobalName) (port : JackPort)
    (hport : st.jc_.port_by_name g = some port)
    (hchild : st.is_our_child (client_part g) = true) :
    st.handle_port_registration g =
      (st.wire port.type port.flags g true st.jc_
          (st.patch_.get_dst_ports_for_src (st.local_of g))).bind fun jc1 =>
        (st.wire port.type port.flags g false jc1
          (st.patch_.get_src_ports_for_dst (st.local_of g))).map fun jc2 =>
            { st with jc_ := jc2 } := by
  simp only [ShowTime.handle_port_registration, hport, hchild, if_true,
    global_to_local_child st g hchild, wire_dsts_eq_wire, wire_srcs_eq_wire]

theorem local_to_global_eq_boundary (st : ShowTime) (e : PortLocalName) (n : PortName)
    (h : st.port_name_local_to_global e = st.opt_.client_global_name_ ++ ':' :: n) :
    e = ':' :: n := by
  unfold ShowTime.port_name_local_to_global at h
  by_cases hc : charAt e 0 = ':'
  · simp only [hc, if_true] at h
    exact List.append_cancel_left h
  · simp only [hc, if_false, List.append_assoc, List.singleton_append] at h
    have := List.append_cancel_left h
    simp at this

/-! ## Name translation and connection requests -/

/-- C3 (as the code has it): for every namespace prefix and every local port name `p` of the
child-port form (not starting with the `:` marker), `port_name_global_to_local` recovers `p`
from `port_name_local_to_global p`. -/
theorem C3_child_port_roundtrip (st : ShowTime) (p : PortLocalName)
    (hp : p.head? ≠ some ':') :
    st.port_name_global_to_local (st.port_name_local_to_global p) = some p := by
  have hc : charAt p 0 ≠ ':' := by
    intro h
    obtain ⟨n, rfl⟩ := (charAt_zero_colon p).1 h
    simp at hp
  simp [ShowTime.port_name_global_to_local, ShowTime.port_name_local_to_global, hc, substr]

/-- C3 (as the code has it) at the prefix `prefix` and the child port `instrument:out`. -/
theorem C3_child_port_roundtrip_witness :
    ex_scenario1.port_name_global_to_local
        (ex_scenario1.port_name_local_to_global "instrument:out".toList)
      = some "instrument:out".toList :=
  C3_child_port_roundtrip ex_scenario1 "instrument:out".toList (by decide)

/-- C3 fails as stated on the boundary-port form: under the prefix `prefix` the local name
`:master` becomes `prefix:master`, which translates back to `master` without the marker. -/
theorem C3_counterexample :
    ex_scenario1.port_name_local_to_global ":master".toList = "prefix:master".toList ∧
    ex_scenario1.port_name_global_to_local
        (ex_scenario1.port_name_local_to_global ":master".toList) = some "master".toList ∧
    ex_scenario1.port_name_global_to_local
        (ex_scenario1.port_name_local_to_global ":master".toList) ≠ some ":master".toList := by
  decide

/-- A run of `handle_port_registration` for a port of a direct child that returns went
through both loops. -/
theorem handle_child_some (st st1 : ShowTime) (g : PortGlobalName) (port : JackPort)
    (hport : st.jc_.port_by_name g = some port)
    (hchild : st.is_our_child (client_part g) = true)
    (hrun : st.handle_port_registration g = some st1) :
    ∃ jc1 jc2,
      st.wire port.type port.flags g true st.jc_
        (st.patch_.get_dst_ports_for_src (st.local_of g)) = some jc1 ∧
      st.wire port.type port.flags g false jc1
        (st.patch_.get_src_ports_for_dst (st.local_of g)) = some jc2 ∧
      st1 = { st with jc_ := jc2 } := by
  rw [handle_child st g port hport hchild] at hrun
  obtain ⟨jc1, h1, hrest⟩ := Option.bind_eq_some.1 hrun
  obtain ⟨jc2, h2, heq⟩ := Option.map_eq_some'.1 hrest
  exact ⟨jc1, jc2, h1, h2, heq.symm⟩

/-- On an engine that grants what it is asked, `handle_port_registration` returns for a
registered port of a direct child. -/
theorem handle_child_total (st : ShowTime) (g : PortGlobalName) (port : JackPort)
    (hopen : st.opened) (hport : st.jc_.port_by_name g = some port)
    (hchild : st.is_our_child (client_part g) = true)
    (hgrant : ∀ a ∈ st.jc_.answers, a = true) :
    ∃ st1, st.handle_port_registration g = some st1 := by
  obtain ⟨jc1, h1, ho1, hg1⟩ := wire_total st port.type port.flags g true
    (st.patch_.get_dst_ports_for_src (st.local_of g)) st.jc_ hopen hgrant
  obtain ⟨jc2, h2, _, _⟩ := wire_total st port.type port.flags g false
    (st.patch_.get_src_ports_for_dst (st.local_of g)) jc1 ho1 hg1
  refine ⟨{ st with jc_ := jc2 }, ?_⟩
  rw [handle_child st g port hport hchild, h1, Option.some_bind, h2]; rfl

/-- A registration the engine refuses is fatal: with the patch `foo:out -> :`
`foo:out -> bar:in` and an engine that refuses the port with the empty name, the run for
`prefix.foo:out` ends in the failed `CHECK`. -/
theorem refused_registration_is_fatal :
    ex_refusing.handle_port_registration "prefix.foo:out".toList = none := by
  decide

/-- C6: for a registered port `g` of a direct child, a run of `handle_port_registration`
that returns (no registration of a boundary port was refused, which is fatal) has issued as
connection requests, in order, one `(g, local_to_global d)` for each `d` of
`get_dst_ports_for_src (local g)` followed by one `(local_to_global s, g)` for each `s` of
`get_src_ports_for_dst (local g)`, duplicates included; and the run returns whenever the
engine grants the registrations it is asked for. -/
theorem C6_connection_requests (st : ShowTime) (g : PortGlobalName) (port : JackPort)
    (hopen : st.opened) (hport : st.jc_.port_by_name g = some port)
    (hchild : st.is_our_child (client_part g) = true) :
    ∃ loc : PortLocalName,
      st.port_name_global_to_local g = some loc ∧
      ((∀ a ∈ st.jc_.answers, a = true) →
        ∃ st1 : ShowTime, st.handle_port_registration g = some st1) ∧
      (∀ st1 : ShowTime, st.handle_port_registration g = some st1 →
        ∃ new : List JackCmd,
          st1.jc_.log = st.jc_.log ++ new ∧
          new.filter JackCmd.is_connect =
            (st.patch_.get_dst_ports_for_src loc).map
                (fun d => JackCmd.connect g (st.port_name_local_to_global d)) ++
            (st.patch_.get_src_ports_for_dst loc).map
                (fun s => JackCmd.connect (st.port_name_local_to_global s) g)) := by
  refine ⟨st.local_of g, global_to_local_child st g hchild,
    handle_child_total st g port hopen hport hchild, ?_⟩
  intro st1 hrun
  obtain ⟨jc1, jc2, h1, h2, rfl⟩ := handle_child_some st st1 g port hport hchild hrun
  obtain ⟨ho1, ⟨new1, hl1, hc1⟩, _, _, _⟩ :=
    wire_spec st port.type port.flags g true _ st.jc_ jc1 hopen h1
  obtain ⟨_, ⟨new2, hl2, hc2⟩, _, _, _⟩ :=
    wire_spec st port.type port.flags g false _ jc1 jc2 ho1 h2
  refine ⟨new1 ++ new2, ?_, ?_⟩
  · show jc2.log = _
    simp only [hl2, hl1, List.append_assoc]
  · rw [List.filter_append, hc1, hc2]
    rfl

/-- C6 at scenario 1: with the single rule `foo:out -> bar:in` and child `foo` registering
`out`, the run returns and the only request goes from `prefix.foo:out` to
`prefix.bar:in`. -/
theorem C6_connection_requests_witness :
    (∀ a ∈ ex_scenario1.jc_.answers, a = true) ∧
    (∃ (loc : PortLocalName) (st1 : ShowTime) (new : List JackCmd),
      ex_scenario1.port_name_global_to_local "prefix.foo:out".toList = some loc ∧
      ex_scenario1.handle_port_registration "prefix.foo:out".toList = some st1 ∧
      st1.jc_.log = ex_scenario1.jc_.log ++ new ∧
      new.filter JackCmd.is_connect =
        (ex_scenario1.patch_.get_dst_ports_for_src loc).map
            (fun d => JackCmd.connect "prefix.foo:out".toList
              (ex_scenario1.port_name_local_to_global d)) ++
        (ex_scenario1.patch_.get_src_ports_for_dst loc).map
            (fun s => JackCmd.connect (ex_scenario1.port_name_local_to_global s)
              "prefix.foo:out".toList)) ∧
    (ex_scenario1.handle_port_registration "prefix.foo:out".toList).map (fun s => s.jc_.log)
      = some [JackCmd.connect "prefix.foo:out".toList "prefix.bar:in".toList] := by
  obtain ⟨loc, hloc, htot, hcond⟩ :=
    C6_connection_requests ex_scenario1 "prefix.foo:out".toList
      { name := "prefix.foo:out".toList, type := "audio".toList, flags := JackPortIsOutput }
      rfl (by decide) (by decide)
  obtain ⟨st1, h1⟩ := htot (by decide)
  obtain ⟨new, hl, hf⟩ := hcond st1 h1
  exact ⟨by decide, ⟨loc, st1, new, hloc, h1, hl, hf⟩, by decide⟩

/-! ## Direct children and child bookkeeping -/

/-- C9: `is_our_child n` holds exactly when `n` is the orchestrator's own name followed by
the delimiter `.` and one more segment without `.`; and for a port whose client name is not
of this form `handle_port_registration` issues no `port_register` and no connection request
whatever the patch contains: it hands back the state unchanged (for a port the engine
knows). -/
theorem C9_only_direct_children (st : ShowTime) (n : ClientGlobalName) (g : PortGlobalName) :
    (st.is_our_child n = true ↔
      ∃ seg : Str, n = st.opt_.client_global_name_ ++ '.' :: seg ∧ '.' ∉ seg) ∧
    ((¬ ∃ seg : Str, client_part g = st.opt_.client_global_name_ ++ '.' :: seg ∧ '.' ∉ seg) →
      st.handle_port_registration g = (st.jc_.port_by_name g).map (fun _ => st)) := by
  refine ⟨is_our_child_iff_child_form st n, ?_⟩
  intro hnot
  have hfalse : st.is_our_child (client_part g) = false := by
    cases h : st.is_our_child (client_part g) with
    | false => rfl
    | true => exact absurd ((is_our_child_iff_child_form st _).1 h) hnot
  unfold ShowTime.handle_port_registration
  cases st.jc_.port_by_name g with
  | none => rfl
  | some port => simp [hfalse]

/-- C9 at scenario 4: the grandchild `prefix.a.b` is no child of `prefix`, and the
registration of its port `out`, which the patch names, leaves the state as it was. -/
theorem C9_only_direct_children_witness :
    ex_scenario4.is_our_child "prefix.a.b".toList = false ∧
    ex_scenario4.handle_port_registration "prefix.a.b:out".toList = some ex_scenario4 :=
  ⟨by decide,
    ((C9_only_direct_children ex_scenario4 "prefix.a.b".toList "prefix.a.b:out".toList).2
      (fun h => absurd
        ((C9_only_direct_children ex_scenario4
          (client_part "prefix.a.b:out".toList) "prefix.a.b:out".toList).1.2 h)
        (by decide))).trans (by decide)⟩

theorem sigchld_loop_untracked (Q : Int) (l : List (Str × Child))
    (h : ∀ e ∈ l, e.2.pid_ ≠ 0 → e.2.pid_ ≠ Q) : sigchld_loop Q l = l := by
  induction l with
  | nil => rfl
  | cons e rest ih =>
    have ih2 := ih (fun x hx => h x (List.mem_cons_of_mem _ hx))
    by_cases he : e.2.pid_ = Q
    · have h0 : e.2.pid_ = 0 := by
        by_contra hne
        exact h e (List.mem_cons_self _ _) hne he
      obtain ⟨k, c⟩ := e
      obtain ⟨pf, nm, pid⟩ := c
      simp only at he h0
      subst h0
      subst he
      simp [sigchld_loop, Child.clear_pid]
    · simp [sigchld_loop, he, ih2]

theorem sigchld_loop_first (P : Int) (l1 l2 : List (Str × Child)) (k : Str) (c : Child)
    (hc : c.pid_ = P) (h1 : ∀ e ∈ l1, e.2.pid_ ≠ P) :
    sigchld_loop P (l1 ++ (k, c) :: l2) = l1 ++ (k, { c with pid_ := 0 }) :: l2 := by
  induction l1 with
  | nil => simp [sigchld_loop, hc, Child.clear_pid]
  | cons e rest ih =>
    have he : e.2.pid_ ≠ P := h1 e (List.mem_cons_self _ _)
    simp [sigchld_loop, he, ih (fun x hx => h1 x (List.mem_cons_of_mem _ hx))]

/-- C10: in a ChildSet whose tracked (non-zero) pids are pairwise distinct and in which
child `C` (key `k`) tracks the non-zero pid `P`, `sigchld P` sets `C`'s pid to `0`, leaves
every other child and the keys as they were; and `sigchld Q` for a pid `Q` no child tracks
leaves the whole ChildSet unchanged. -/
theorem C10_sigchld_frame (cm : ChildManager) (l1 l2 : List (Str × Child)) (k : Str)
    (c : Child) (P Q : Int)
    (hdist : ((cm.children_.map (fun e => e.2.pid_)).filter (fun p => decide (p ≠ 0))).Nodup)
    (hsplit : cm.children_ = l1 ++ (k, c) :: l2) (hP : c.pid_ = P) (hP0 : P ≠ 0)
    (hQ : ∀ e ∈ cm.children_, e.2.pid_ ≠ 0 → e.2.pid_ ≠ Q) :
    (cm.sigchld P).children_ = l1 ++ (k, { c with pid_ := 0 }) :: l2 ∧
    (cm.sigchld P).children_.map Prod.fst = cm.children_.map Prod.fst ∧
    (cm.sigchld P).prefix_ = cm.prefix_ ∧
    cm.sigchld Q = cm := by
  have h1 : ∀ e ∈ l1, e.2.pid_ ≠ P := by
    intro e he hp
    rw [hsplit] at hdist
    simp only [List.map_append, List.map_cons, List.filter_append] at hdist
    have hd := (List.nodup_append.1 hdist).2.2
    have hin1 : P ∈ (l1.map (fun e => e.2.pid_)).filter (fun p => decide (p ≠ 0)) := by
      rw [List.mem_filter]
      exact ⟨List.mem_map.2 ⟨e, he, hp⟩, by simpa using hP0⟩
    have hin2 : P ∈ (c.pid_ :: l2.map (fun e => e.2.pid_)).filter
        (fun p => decide (p ≠ 0)) := by
      rw [List.mem_filter]
      exact ⟨by rw [hP]; exact List.mem_cons_self _ _, by simpa using hP0⟩
    exact hd hin1 hin2
  have hres : (cm.sigchld P).children_ = l1 ++ (k, { c with pid_ := 0 }) :: l2 := by
    simp only [ChildManager.sigchld, hsplit]
    exact sigchld_loop_first P l1 l2 k c hP h1
  refine ⟨hres, ?_, rfl, ?_⟩
  · rw [hres, hsplit]; simp
  · obtain ⟨ch, pf⟩ := cm
    simp only [ChildManager.sigchld]
    rw [sigchld_loop_untracked Q ch hQ]

/-- C10 at three children `a` (pid 11), `b` (pid 12), `c` (not running): the termination of
pid 12 clears `b` only, and the termination of pid 99 changes nothing. -/
theorem C10_sigchld_frame_witness :
    (ex_children.sigchld 12).children_ =
      [("a".toList, { prefix_ := "prefix".toList, client_local_name_ := "a".toList,
                      pid_ := 11 })] ++
      ("b".toList, { prefix_ := "prefix".toList, client_local_name_ := "b".toList,
                     pid_ := 0 }) ::
      [("c".toList, { prefix_ := "prefix".toList, client_local_name_ := "c".toList,
                      pid_ := 0 })] ∧
    (ex_children.sigchld 12).children_.map Prod.fst = ex_children.children_.map Prod.fst ∧
    (ex_children.sigchld 12).prefix_ = ex_children.prefix_ ∧
    ex_children.sigchld 99 = ex_children :=
  C10_sigchld_frame ex_children
    [("a".toList, { prefix_ := "prefix".toList, client_local_name_ := "a".toList,
                    pid_ := 11 })]
    [("c".toList, { prefix_ := "prefix".toList, client_local_name_ := "c".toList,
                    pid_ := 0 })]
    "b".toList { prefix_ := "prefix".toList, client_local_name_ := "b".toList, pid_ := 12 }
    12 99 (by decide) rfl rfl (by decide) (by decide)

/-! ## Boundary ports -/

theorem wire_with_jc (st : ShowTime) (j : JackConnection) (ty : Str) (fl : Nat)
    (g : PortGlobalName) (b : Bool) (l : List PortLocalName) :
    ∀ jc, ShowTime.wire { st with jc_ := j } ty fl g b jc l = st.wire ty fl g b jc l := by
  induction l with
  | nil => intro jc; rfl
  | cons e rest ih =>
    intro jc
    simp only [ShowTime.wire]
    have h1 : ShowTime.ensure_boundary_port { st with jc_ := j } jc ty fl e
        = st.ensure_boundary_port jc ty fl e := rfl
    have h2 : ShowTime.request { st with jc_ := j } g b e = st.request g b e := rfl
    rw [h1, h2]
    cases st.ensure_boundary_port jc ty fl e with
    | none => rfl
    | some j1 => simp only [Option.some_bind, ih]

theorem port_exists_of_port_by_name {jc : JackConnection} {x : PortGlobalName} {q : JackPort}
    (h : jc.port_by_name x = some q) : jc.port_exists x = true := by
  simp [JackConnection.port_exists, h]

theorem port_exists_mono {jc jc1 : JackConnection}
    (hm : ∀ x q, jc.port_by_name x = some q → jc1.port_by_name x = some q)
    {x : PortGlobalName} (h : jc.port_exists x = true) : jc1.port_exists x = true := by
  simp only [JackConnection.port_exists, Option.isSome_iff_exists] at h
  obtain ⟨q, hq⟩ := h
  exact port_exists_of_port_by_name (hm x q hq)

/-- The first boundary endpoint `:n` of a loop that runs to its end, whose port does not
exist yet: the port is registered, then the connection request for the endpoint is
issued. -/
theorem wire_first_new (st : ShowTime) (ty : Str) (fl : Nat) (g : PortGlobalName) (b : Bool)
    (l1 l2 : List PortLocalName) (n : PortName) (jc jc1 : JackConnection)
    (hopen : jc.client_name = st.opt_.client_global_name_)
    (hnot : (':' :: n) ∉ l1)
    (habs : jc.port_exists (st.opt_.client_global_name_ ++ ':' :: n) = false)
    (hrun : st.wire ty fl g b jc (l1 ++ (':' :: n) :: l2) = some jc1) :
    ∃ pre post,
      jc1.client_name = st.opt_.client_global_name_ ∧
      jc1.log = jc.log ++ pre ++
        [JackCmd.port_register n ty (opposite_flags fl), st.request g b (':' :: n)] ++ post ∧
      pre.filter JackCmd.is_connect = l1.map (st.request g b) ∧
      jc1.port_by_name (st.opt_.client_global_name_ ++ ':' :: n)
        = some { name := st.opt_.client_global_name_ ++ ':' :: n, type := ty,
                 flags := opposite_flags fl } := by
  rw [wire_append] at hrun
  obtain ⟨ja, h1, h2⟩ := Option.bind_eq_some.1 hrun
  obtain ⟨hoa, ⟨pre, hla, hca⟩, _, _, haa⟩ := wire_spec st ty fl g b l1 jc ja hopen h1
  have habs1 : ja.port_exists (st.opt_.client_global_name_ ++ ':' :: n) = false := by
    apply haa _ habs
    intro m hm e
    have e2 := List.append_cancel_left e
    injection e2 with _ e3
    subst e3
    exact hnot hm
  simp only [ShowTime.wire] at h2
  obtain ⟨jr, he, h3⟩ := Option.bind_eq_some.1 h2
  obtain ⟨hor, ⟨cmds, hlr, _, hnew⟩, _, _, _, _⟩ := ensure_spec st ja jr ty fl (':' :: n) hoa he
  obtain ⟨hcmds, hpr⟩ := hnew n rfl habs1
  obtain ⟨hob, ⟨post, hlb, _⟩, hmb, _, _⟩ := wire_spec st ty fl g b l2
    { jr with log := jr.log ++ [st.request g b (':' :: n)] } jc1 hor h3
  refine ⟨pre, post, hob, ?_, hca, hmb _ _ hpr⟩
  rw [hlb]
  simp only [hlr, hcmds, hla, List.append_assoc, List.singleton_append]

theorem local_to_global_boundary (st : ShowTime) (n : PortName) :
    st.port_name_local_to_global (':' :: n) = st.opt_.client_global_name_ ++ ':' :: n := by
  simp [ShowTime.port_name_local_to_global, charAt]

theorem child_port_ne_boundary (st : ShowTime) (g : PortGlobalName) (n : PortName)
    (hchild : st.is_our_child (client_part g) = true) :
    g ≠ st.opt_.client_global_name_ ++ ':' :: n := by
  intro e
  have h := (child_port_shape st g hchild).2
  rw [e] at h
  have hlt : st.opt_.client_global_name_.length
      < (st.opt_.client_global_name_ ++ ':' :: n).length := by simp
  simp only [charAt, List.getD_eq_getElem?_getD, List.getElem?_eq_getElem hlt,
    Option.getD_some] at h
  rw [List.getElem_append_right (le_refl _)] at h
  simp at h

/-- A connection request of a loop that touches the boundary port `:n` comes from the
endpoint `:n`. -/
theorem request_touches (st : ShowTime) (g : PortGlobalName) (b : Bool) (e : PortLocalName)
    (n : PortName) (hg : g ≠ st.opt_.client_global_name_ ++ ':' :: n)
    (h : st.request g b e = JackCmd.connect g (st.opt_.client_global_name_ ++ ':' :: n) ∨
         st.request g b e = JackCmd.connect (st.opt_.client_global_name_ ++ ':' :: n) g) :
    e = ':' :: n := by
  cases b with
  | true =>
    simp only [ShowTime.request, if_true, JackCmd.connect.injEq] at h
    rcases h with ⟨_, h⟩ | ⟨h, _⟩
    · exact local_to_global_eq_boundary st e n h
    · exact absurd h hg
  | false =>
    simp only [ShowTime.request, Bool.false_eq_true, if_false, JackCmd.connect.injEq] at h
    rcases h with ⟨_, h⟩ | ⟨h, _⟩
    · exact absurd h hg
    · exact local_to_global_eq_boundary st e n h

theorem no_touch_before (st : ShowTime) (g : PortGlobalName) (b : Bool)
    (l : List PortLocalName) (n : PortName) (cmds : List JackCmd)
    (hg : g ≠ st.opt_.client_global_name_ ++ ':' :: n)
    (hf : cmds.filter JackCmd.is_connect = l.map (st.request g b))
    (hnot : (':' :: n) ∉ l) :
    ∀ x ∈ cmds, x ≠ JackCmd.connect g (st.opt_.client_global_name_ ++ ':' :: n) ∧
      x ≠ JackCmd.connect (st.opt_.client_global_name_ ++ ':' :: n) g := by
  intro x hx
  have key : ¬ (x = JackCmd.connect g (st.opt_.client_global_name_ ++ ':' :: n) ∨
      x = JackCmd.connect (st.opt_.client_global_name_ ++ ':' :: n) g) := by
    intro hor
    have hc : x.is_connect = true := by
      rcases hor with h | h <;> rw [h] <;> rfl
    have hm : x ∈ cmds.filter JackCmd.is_connect := List.mem_filter.2 ⟨hx, hc⟩
    rw [hf] at hm
    obtain ⟨e, he, hxe⟩ := List.mem_map.1 hm
    rw [← hxe] at hor
    have := request_touches st g b e n hg hor
    subst this
    exact hnot he
  exact ⟨fun h => key (Or.inl h), fun h => key (Or.inr h)⟩

/-- C7: when `handle_port_registration` runs for a registered port `g` of a direct child, a
matched patch endpoint is the boundary form `:n`, the port `prefix:n` does not exist yet,
and the run returns (a refused registration is fatal), then a port `n` was registered on the
orchestrator with the triggering port's type and the opposite direction flag (output if the
triggering port has the input flag, input otherwise), directly followed by the connection
request between `g` and `prefix:n`; no request between the two was issued before the
registration, and the port exists afterwards.  The run returns whenever the engine grants
the registrations it is asked for. -/
theorem C7_boundary_port_created (st : ShowTime) (g : PortGlobalName) (port : JackPort)
    (loc : PortLocalName) (n : PortName)
    (hopen : st.opened) (hport : st.jc_.port_by_name g = some port)
    (hchild : st.is_our_child (client_part g) = true)
    (hloc : st.port_name_global_to_local g = some loc)
    (hmatch : (':' :: n) ∈ st.patch_.get_dst_ports_for_src loc ∨
              (':' :: n) ∈ st.patch_.get_src_ports_for_dst loc)
    (hnew : st.jc_.port_exists (st.opt_.client_global_name_ ++ ':' :: n) = false) :
    ((∀ a ∈ st.jc_.answers, a = true) →
      ∃ st1 : ShowTime, st.handle_port_registration g = some st1) ∧
    (∀ st1 : ShowTime, st.handle_port_registration g = some st1 →
      ∃ (pre post : List JackCmd) (c : JackCmd),
        st1.jc_.log = st.jc_.log ++ pre ++
          [JackCmd.port_register n port.type
            (if port.flags &&& JackPortIsInput ≠ 0 then JackPortIsOutput
             else JackPortIsInput),
           c] ++ post ∧
        ((':' :: n) ∈ st.patch_.get_dst_ports_for_src loc →
          c = JackCmd.connect g (st.opt_.client_global_name_ ++ ':' :: n)) ∧
        ((':' :: n) ∉ st.patch_.get_dst_ports_for_src loc →
          c = JackCmd.connect (st.opt_.client_global_name_ ++ ':' :: n) g) ∧
        (∀ x ∈ pre, x ≠ JackCmd.connect g (st.opt_.client_global_name_ ++ ':' :: n) ∧
          x ≠ JackCmd.connect (st.opt_.client_global_name_ ++ ':' :: n) g) ∧
        st1.jc_.port_by_name (st.opt_.client_global_name_ ++ ':' :: n)
          = some { name := st.opt_.client_global_name_ ++ ':' :: n, type := port.type,
                   flags := if port.flags &&& JackPortIsInput ≠ 0 then JackPortIsOutput
                            else JackPortIsInput }) := by
  refine ⟨handle_child_total st g port hopen hport hchild, ?_⟩
  intro st1 hrun
  have hl : loc = st.local_of g := by
    have := global_to_local_child st g hchild
    rw [hloc] at this
    exact Option.some.inj this
  subst hl
  have hg := child_port_ne_boundary st g n hchild
  obtain ⟨jc1, jc2, h1, h2, rfl⟩ := handle_child_some st st1 g port hport hchild hrun
  by_cases hd : (':' :: n) ∈ st.patch_.get_dst_ports_for_src (st.local_of g)
  · obtain ⟨l1, l2, hsplit, hnot⟩ := List.eq_append_cons_of_mem hd
    rw [hsplit] at h1
    obtain ⟨pre, post, ho1, hl1, hc1, hp1⟩ :=
      wire_first_new st port.type port.flags g true l1 l2 n st.jc_ jc1 hopen hnot hnew h1
    obtain ⟨_, ⟨new2, hl2, _⟩, hm2, _, _⟩ :=
      wire_spec st port.type port.flags g false _ jc1 jc2 ho1 h2
    refine ⟨pre, post ++ new2, st.request g true (':' :: n), ?_, ?_, ?_, ?_, ?_⟩
    · show jc2.log = _
      rw [hl2, hl1]
      simp only [opposite_flags, List.append_assoc]
    · intro _
      simp only [ShowTime.request, if_true, local_to_global_boundary]
    · intro h; exact absurd hd h
    · exact no_touch_before st g true l1 n pre hg hc1 hnot
    · exact hm2 _ _ hp1
  · have hs : (':' :: n) ∈ st.patch_.get_src_ports_for_dst (st.local_of g) := by
      rcases hmatch with h | h
      · exact absurd h hd
      · exact h
    obtain ⟨ho1, ⟨new1, hl1, hc1⟩, _, _, ha1⟩ :=
      wire_spec st port.type port.flags g true _ st.jc_ jc1 hopen h1
    have habs : jc1.port_exists (st.opt_.client_global_name_ ++ ':' :: n) = false := by
      apply ha1 _ hnew
      intro m hm e
      have e2 := List.append_cancel_left e
      injection e2 with _ e3
      subst e3
      exact hd hm
    obtain ⟨l1, l2, hsplit, hnot⟩ := List.eq_append_cons_of_mem hs
    rw [hsplit] at h2
    obtain ⟨pre, post, _, hl2, hc2, hp2⟩ :=
      wire_first_new st port.type port.flags g false l1 l2 n jc1 jc2 ho1 hnot habs h2
    refine ⟨new1 ++ pre, post, st.request g false (':' :: n), ?_, ?_, ?_, ?_, ?_⟩
    · show jc2.log = _
      rw [hl2, hl1]
      simp only [opposite_flags, List.append_assoc]
    · intro h; exact absurd h hd
    · intro _
      simp [ShowTime.request, local_to_global_boundary]
    · intro x hx
      rcases List.mem_append.1 hx with hx | hx
      · exact no_touch_before st g true _ n new1 hg hc1 hd x hx
      · exact no_touch_before st g false l1 n pre hg hc2 hnot x hx
    · exact hp2

/-- C7 at scenario 2: with the rule `synth:out -> :master` and child `synth` registering the
output port `out`, on an engine that grants the registration, the input port `master` is
created and then `prefix.synth:out` is connected to `prefix:master`. -/
theorem C7_boundary_port_created_witness :
    (∀ a ∈ ex_scenario2.jc_.answers, a = true) ∧
    (∃ (st1 : ShowTime) (pre post : List JackCmd) (c : JackCmd),
      ex_scenario2.handle_port_registration "prefix.synth:out".toList = some st1 ∧
      st1.jc_.log = ex_scenario2.jc_.log ++ pre ++
        [JackCmd.port_register "master".toList "audio".toList
          (if JackPortIsOutput &&& JackPortIsInput ≠ 0 then JackPortIsOutput
           else JackPortIsInput),
         c] ++ post ∧
      c = JackCmd.connect "prefix.synth:out".toList
            (ex_scenario2.opt_.client_global_name_ ++ ':' :: "master".toList) ∧
      (∀ x ∈ pre,
        x ≠ JackCmd.connect "prefix.synth:out".toList
              (ex_scenario2.opt_.client_global_name_ ++ ':' :: "master".toList) ∧
        x ≠ JackCmd.connect (ex_scenario2.opt_.client_global_name_ ++ ':' :: "master".toList)
              "prefix.synth:out".toList) ∧
      st1.jc_.port_by_name (ex_scenario2.opt_.client_global_name_ ++ ':' :: "master".toList)
        = some { name := ex_scenario2.opt_.client_global_name_ ++ ':' :: "master".toList,
                 type := "audio".toList,
                 flags := if JackPortIsOutput &&& JackPortIsInput ≠ 0 then JackPortIsOutput
                          else JackPortIsInput }) ∧
    (ex_scenario2.handle_port_registration "prefix.synth:out".toList).map (fun s => s.jc_.log)
      = some [JackCmd.port_register "master".toList "audio".toList JackPortIsInput,
              JackCmd.connect "prefix.synth:out".toList "prefix:master".toList] := by
  obtain ⟨htot, hcond⟩ :=
    C7_boundary_port_created ex_scenario2 "prefix.synth:out".toList
      { name := "prefix.synth:out".toList, type := "audio".toList, flags := JackPortIsOutput }
      "synth:out".toList "master".toList rfl (by decide) (by decide) (by decide)
      (Or.inl (by decide)) (by decide)
  obtain ⟨st1, h1⟩ := htot (by decide)
  obtain ⟨pre, post, c, hlog, hdst, _, hpre, hport⟩ := hcond st1 h1
  exact ⟨by decide, ⟨st1, pre, post, c, h1, hlog, hdst (by decide), hpre, hport⟩, by decide⟩

/-- C8: running `handle_port_registration` twice in a row for the same registered port of a
direct child: after a first run that returned, the second run returns too and issues no
`port_register` (its commands are all connection requests, and the set of ports and the
engine's pending answers stay as the first run left them), and its connection requests are
the same sequence as those of the first run.  The first run returns whenever the engine
grants the registrations it is asked for. -/
theorem C8_second_run (st : ShowTime) (g : PortGlobalName) (port : JackPort)
    (hopen : st.opened) (hport : st.jc_.port_by_name g = some port)
    (hchild : st.is_our_child (client_part g) = true) :
    ((∀ a ∈ st.jc_.answers, a = true) →
      ∃ st1 : ShowTime, st.handle_port_registration g = some st1) ∧
    (∀ st1 : ShowTime, st.handle_port_registration g = some st1 →
      ∃ (st2 : ShowTime) (new1 new2 : List JackCmd),
        st1.handle_port_registration g = some st2 ∧
        st1.jc_.log = st.jc_.log ++ new1 ∧
        st2.jc_.log = st1.jc_.log ++ new2 ∧
        (∀ c ∈ new2, c.is_connect = true) ∧
        new2 = new1.filter JackCmd.is_connect ∧
        st2.jc_.ports = st1.jc_.ports ∧
        st2.jc_.answers = st1.jc_.answers) := by
  refine ⟨handle_child_total st g port hopen hport hchild, ?_⟩
  intro st1 hrun
  obtain ⟨jc1, jc2, h1, h2, rfl⟩ := handle_child_some st st1 g port hport hchild hrun
  obtain ⟨ho1, ⟨new1, hl1, hc1⟩, hm1, hx1, _⟩ :=
    wire_spec st port.type port.flags g true _ st.jc_ jc1 hopen h1
  obtain ⟨_, ⟨new2, hl2, hc2⟩, hm2, hx2, _⟩ :=
    wire_spec st port.type port.flags g false _ jc1 jc2 ho1 h2
  have hport1 : jc2.port_by_name g = some port :=
    hm2 _ _ (hm1 _ _ hport)
  have hrun2 := handle_child { st with jc_ := jc2 } g port hport1 hchild
  have hloc : ShowTime.local_of { st with jc_ := jc2 } g = st.local_of g := rfl
  simp only [hloc, wire_with_jc] at hrun2
  have hd : ∀ n, (':' :: n) ∈ st.patch_.get_dst_ports_for_src (st.local_of g) →
      jc2.port_exists (st.opt_.client_global_name_ ++ ':' :: n) = true :=
    fun n hn => port_exists_mono hm2 (hx1 n hn)
  have hw1 := wire_existing st port.type port.flags g true
    (st.patch_.get_dst_ports_for_src (st.local_of g)) jc2 hd
  have hw2 := wire_existing st port.type port.flags g false
    (st.patch_.get_src_ports_for_dst (st.local_of g))
    { jc2 with log := jc2.log ++
        (st.patch_.get_dst_ports_for_src (st.local_of g)).map (st.request g true) }
    (fun n hn => hx2 n hn)
  have hnew : (new1 ++ new2).filter JackCmd.is_connect =
      (st.patch_.get_dst_ports_for_src (st.local_of g)).map (st.request g true) ++
      (st.patch_.get_src_ports_for_dst (st.local_of g)).map (st.request g false) := by
    rw [List.filter_append, hc1, hc2]
  refine ⟨{ st with jc_ := { jc2 with log := (jc2.log ++
        (st.patch_.get_dst_ports_for_src (st.local_of g)).map (st.request g true)) ++
        (st.patch_.get_src_ports_for_dst (st.local_of g)).map (st.request g false) } },
    new1 ++ new2, (new1 ++ new2).filter JackCmd.is_connect, ?_, ?_, ?_, ?_, rfl, rfl, rfl⟩
  · rw [hrun2]
    show (st.wire port.type port.flags g true jc2 _).bind _ = _
    rw [hw1, Option.some_bind, hw2]
    rfl
  · show jc2.log = _
    rw [hl2, hl1, List.append_assoc]
  · show jc2.log ++ _ ++ _ = jc2.log ++ _
    rw [hnew, List.append_assoc]
  · intro c hc
    exact (List.mem_filter.1 hc).2

/-- C8 at scenario 2, on an engine that grants the registration: the first run registers
`master` and connects, the second run only repeats the connection request. -/
theorem C8_second_run_witness :
    (∀ a ∈ ex_scenario2.jc_.answers, a = true) ∧
    (∃ (st1 st2 : ShowTime) (new1 new2 : List JackCmd),
      ex_scenario2.handle_port_registration "prefix.synth:out".toList = some st1 ∧
      st1.handle_port_registration "prefix.synth:out".toList = some st2 ∧
      st1.jc_.log = ex_scenario2.jc_.log ++ new1 ∧
      st2.jc_.log = st1.jc_.log ++ new2 ∧
      (∀ c ∈ new2, c.is_connect = true) ∧
      new2 = new1.filter JackCmd.is_connect ∧
      st2.jc_.ports = st1.jc_.ports ∧
      st2.jc_.answers = st1.jc_.answers) ∧
    ((ex_scenario2.handle_port_registration "prefix.synth:out".toList).bind
        (fun s => s.handle_port_registration "prefix.synth:out".toList)).map
        (fun s => s.jc_.log)
      = some [JackCmd.port_register "master".toList "audio".toList JackPortIsInput,
              JackCmd.connect "prefix.synth:out".toList "prefix:master".toList,
              JackCmd.connect "prefix.synth:out".toList "prefix:master".toList] := by
  obtain ⟨htot, hcond⟩ :=
    C8_second_run ex_scenario2 "prefix.synth:out".toList
      { name := "prefix.synth:out".toList, type := "audio".toList, flags := JackPortIsOutput }
      rfl (by decide) (by decide)
  obtain ⟨st1, h1⟩ := htot (by decide)
  obtain ⟨st2, new1, new2, h2, hl1, hl2, hc, hn, hp, ha⟩ := hcond st1 h1
  exact ⟨by decide, ⟨st1, st2, new1, new2, h1, h2, hl1, hl2, hc, hn, hp, ha⟩, by decide⟩

/-! ## Stopping children -/

theorem running_congr (c : Child) (os os1 : Os) (h : os1.procs = os.procs) :
    c.running os1 = c.running os := by
  simp only [Child.running, Os.kill, h]
  by_cases hp : c.pid_ = 0
  · simp [hp]
  · by_cases hm : c.pid_ ∈ os.procs <;> simp [hp, hm]

theorem running_iff (c : Child) (os : Os) :
    c.running os = true ↔ c.pid_ ≠ 0 ∧ c.pid_ ∈ os.procs := by
  simp only [Child.running, Os.kill]
  by_cases hp : c.pid_ = 0
  · simp [hp]
  · by_cases hm : c.pid_ ∈ os.procs <;> simp [hp, hm]

theorem stop_running (c : Child) (os : Os) (h : c.running os = true) :
    c.stop os = (c, { os with signals := os.signals ++ [(c.pid_, SIGTERM)] }) := by
  obtain ⟨hp, hm⟩ := (running_iff c os).1 h
  have h15 : SIGTERM ≠ 0 := by decide
  simp [Child.stop, Os.kill, hp, hm, h15]

/-- The loop of `stop_children` hands back the entries as they were, and delivers `SIGTERM`
to the running children in order. -/
theorem stop_children_loop_spec (l : List (Str × Child)) :
    ∀ os : Os, stop_children_loop l os =
      (l, { os with signals := os.signals ++ stop_requests l os }) := by
  unfold stop_requests
  induction l with
  | nil => intro os; simp [stop_children_loop]
  | cons e rest ih =>
    intro os
    cases hr : e.2.running os with
    | false =>
      simp only [stop_children_loop, hr, ih]
      simp [hr]
    | true =>
      have hc : ∀ x : Str × Child,
          x.2.running { os with signals := os.signals ++ [(e.2.pid_, SIGTERM)] }
            = x.2.running os := fun x => running_congr x.2 _ _ rfl
      simp only [stop_children_loop, hr, if_true, stop_running e.2 os hr, ih, hc]
      simp [hr]

theorem stop_children_spec (cm : ChildManager) (os : Os) :
    cm.stop_children os =
      (cm, { os with signals := os.signals ++ stop_requests cm.children_ os }) := by
  simp [ChildManager.stop_children, stop_children_loop_spec]

/-- C11 (as the code has it): `Child::stop` delivers `SIGTERM` to the tracked process when
the child tracks one and leaves the tracked pid as it is, and `ChildManager::stop_children`
hands back every child with the pid it had; the pid is cleared by `sigchld` only. -/
theorem C11_stop_keeps_pid (c : Child) (cm : ChildManager) (os : Os) :
    (c.stop os).1 = c ∧
    (c.stop os).2.signals =
      (if c.pid_ ≠ 0 ∧ c.pid_ ∈ os.procs then os.signals ++ [(c.pid_, SIGTERM)]
       else os.signals) ∧
    (cm.stop_children os).1 = cm := by
  refine ⟨?_, ?_, ?_⟩
  · unfold Child.stop; split <;> rfl
  · have h15 : SIGTERM ≠ 0 := by decide
    by_cases hp : c.pid_ = 0
    · simp [Child.stop, hp]
    · by_cases hm : c.pid_ ∈ os.procs <;> simp [Child.stop, Os.kill, hp, hm, h15]
  · rw [stop_children_spec]

/-- C11 fails as stated: the child `b` tracking pid 12 still tracks pid 12 after
`Child::stop`, and after `stop_children` the running children `a` and `b` still track 11 and
12, although `SIGTERM` was delivered to both. -/
theorem C11_counterexample :
    ex_child_b.pid_ ≠ 0 ∧
    (ex_child_b.stop ex_os).1.pid_ = 12 ∧
    (ex_child_b.stop ex_os).1.pid_ ≠ 0 ∧
    (ex_children.stop_children ex_os).1.children_.map (fun e => e.2.pid_) = [11, 12, 0] ∧
    (ex_children.stop_children ex_os).2.signals = [(11, SIGTERM), (12, SIGTERM)] := by
  decide

/-! ## The event loop -/

/-- A message that is dispatched leaves `running` false exactly when it is a signal message
with a termination signal. -/
theorem dispatch_running (st : ShowTime) (m : showtime_msg_t) (r : ShowTime × Bool)
    (h : st.dispatch m = some r) : r.2 = !m.is_termination := by
  unfold ShowTime.dispatch at h
  by_cases h0 : m.type = SHOWTIME_SIGNAL_RECEIVED
  · simp only [h0, if_true, Option.some.injEq] at h
    subst h
    simp only [showtime_msg_t.is_termination, h0, decide_True, Bool.true_and]
    cases is_termination_signal m.signum <;> rfl
  · have hterm : m.is_termination = false := by
      simp [showtime_msg_t.is_termination, h0]
    simp only [h0, if_false] at h
    rw [hterm]
    by_cases h1 : m.type = SHOWTIME_JACK_PORT_REGISTRATION
    · simp only [h1, if_true] at h
      cases hn : st.jc_.port_name m.port with
      | none => simp [hn] at h
      | some g =>
        simp only [hn] at h
        by_cases hreg : m.reg = 0
        · simp only [hreg, ne_eq, not_true_eq_false, if_false, Option.some.injEq] at h
          subst h; rfl
        · simp only [ne_eq, hreg, not_false_eq_true, if_true] at h
          cases hh : st.handle_port_registration g with
          | none => simp [hh] at h
          | some s =>
            simp only [hh, Option.map_some', Option.some.injEq] at h
            subst h; rfl
    · simp only [h1, if_false] at h
      by_cases h2 : m.type = SHOWTIME_JACK_CLIENT_REGISTRATION
      · simp only [h2, if_true, Option.some.injEq] at h
        subst h; rfl
      · simp [h2] at h

/-- A signal message with `SIGTERM` or `SIGINT` changes nothing but `running`. -/
theorem dispatch_termination (st : ShowTime) (t : showtime_msg_t)
    (ht : t.type = SHOWTIME_SIGNAL_RECEIVED) (hsig : t.signum = SIGTERM ∨ t.signum = SIGINT) :
    st.dispatch t = some (st, false) := by
  have hc : t.signum ≠ SIGCHLD := by
    rcases hsig with h | h <;> rw [h] <;> decide
  have hterm : is_termination_signal t.signum = true := by
    rcases hsig with h | h <;> rw [h] <;> decide
  simp [ShowTime.dispatch, ht, hc, hterm]

theorem run_loop_false (st : ShowTime) (l : List showtime_msg_t) :
    run_loop st false l = some (st, false) := by
  cases l <;> rfl

theorem run_loop_append (l1 l2 : List showtime_msg_t) :
    ∀ (st : ShowTime) (b : Bool), run_loop st b (l1 ++ l2)
      = (run_loop st b l1).bind (fun p => run_loop p.1 p.2 l2) := by
  induction l1 with
  | nil =>
    intro st b
    cases b <;> simp [run_loop, run_loop_false]
  | cons m rest ih =>
    intro st b
    cases b with
    | false => simp [run_loop_false]
    | true =>
      simp only [List.cons_append, run_loop]
      cases st.dispatch m with
      | none => rfl
      | some r => exact ih r.1 r.2

/-- While no termination signal is received, `running` stays true. -/
theorem run_loop_stays_running (l : List showtime_msg_t)
    (h : ∀ m ∈ l, m.is_termination = false) :
    ∀ (st : ShowTime) (p : ShowTime × Bool), run_loop st true l = some p → p.2 = true := by
  induction l with
  | nil =>
    intro st p hp
    simp only [run_loop, Option.some.injEq] at hp
    subst hp; rfl
  | cons m rest ih =>
    intro st p hp
    simp only [run_loop] at hp
    cases hd : st.dispatch m with
    | none => simp [hd] at hp
    | some r =>
      simp only [hd] at hp
      have hr : r.2 = true := by
        rw [dispatch_running st m r hd, h m (List.mem_cons_self _ _)]; rfl
      obtain ⟨s1, b1⟩ := r
      simp only at hr
      subst hr
      exact ih (fun x hx => h x (List.mem_cons_of_mem _ hx)) s1 p hp

theorem is_termination_iff (m : showtime_msg_t) :
    m.is_termination = true ↔
      m.type = SHOWTIME_SIGNAL_RECEIVED ∧ (m.signum = SIGTERM ∨ m.signum = SIGINT) := by
  simp [showtime_msg_t.is_termination, is_termination_signal]

/-- C12: `ShowTime::run` over the list of received messages returns only if a signal message
with `SIGTERM` or `SIGINT` was received; on the first such message every running child is
sent `SIGTERM`, then the ChildSet is cleared and `run` returns, in the state the messages
before the termination message produced: no message after it is dispatched. -/
theorem C12_run_termination (st : ShowTime) (os : Os) (evs pre post : List showtime_msg_t)
    (t : showtime_msg_t)
    (hpre : ∀ m ∈ pre, m.is_termination = false)
    (ht : t.type = SHOWTIME_SIGNAL_RECEIVED)
    (hsig : t.signum = SIGTERM ∨ t.signum = SIGINT) :
    (∀ st1 os1, st.run os evs = some (RunResult.returned st1 os1) →
      ∃ m ∈ evs, m.type = SHOWTIME_SIGNAL_RECEIVED ∧
        (m.signum = SIGTERM ∨ m.signum = SIGINT)) ∧
    st.run os (pre ++ t :: post) =
      (run_loop st true pre).map (fun p =>
        RunResult.returned
          { p.1 with cm_ := { p.1.cm_ with children_ := [] } }
          { os with signals := os.signals ++ stop_requests p.1.cm_.children_ os }) := by
  constructor
  · intro st1 os1 hrun
    by_contra hno
    have hall : ∀ m ∈ evs, m.is_termination = false := by
      intro m hm
      cases hterm : m.is_termination with
      | false => rfl
      | true => exact absurd ⟨m, hm, (is_termination_iff m).1 hterm⟩ hno
    unfold ShowTime.run at hrun
    cases hl : run_loop st true evs with
    | none => simp [hl] at hrun
    | some p =>
      have hp := run_loop_stays_running evs hall st p hl
      obtain ⟨s, b⟩ := p
      simp only at hp
      subst hp
      simp [hl] at hrun
  · unfold ShowTime.run
    rw [run_loop_append]
    cases hl : run_loop st true pre with
    | none => rfl
    | some p =>
      have hp := run_loop_stays_running pre hpre st p hl
      obtain ⟨s, b⟩ := p
      simp only at hp
      subst hp
      simp only [Option.some_bind, run_loop, dispatch_termination s t ht hsig, run_loop_false,
        stop_children_spec, ChildManager.forget_children, Option.map_some']

/-- C12 at scenario 3: two running children (pids 11 and 12) and one that is not running; a
client registration, then `SIGTERM`, then a port registration of `prefix.synth:out` and a
`SIGCHLD` for pid 11.  Both running children are sent `SIGTERM`, the ChildSet is cleared,
and neither the wiring nor the `SIGCHLD` bookkeeping of the later messages takes place. -/
theorem C12_run_termination_witness :
    (∀ st1 os1,
      ex_scenario3.run ex_os [msg_client "prefix.a".toList 1, msg_signal SIGINT 0]
        = some (RunResult.returned st1 os1) →
      ∃ m ∈ [msg_client "prefix.a".toList 1, msg_signal SIGINT 0],
        m.type = SHOWTIME_SIGNAL_RECEIVED ∧ (m.signum = SIGTERM ∨ m.signum = SIGINT)) ∧
    ex_scenario3.run ex_os
        ([msg_client "prefix.a".toList 1] ++ msg_signal SIGTERM 0 ::
          [msg_port 1 1, msg_signal SIGCHLD 11])
      = some (RunResult.returned
          { ex_scenario3 with cm_ := { children_ := [], prefix_ := "prefix".toList } }
          { procs := [11, 12], signals := [(11, SIGTERM), (12, SIGTERM)] }) :=
  ⟨(C12_run_termination ex_scenario3 ex_os
      [msg_client "prefix.a".toList 1, msg_signal SIGINT 0]
      [msg_client "prefix.a".toList 1] [msg_port 1 1, msg_signal SIGCHLD 11]
      (msg_signal SIGTERM 0) (by decide) rfl (Or.inl rfl)).1,
   (C12_run_termination ex_scenario3 ex_os
      [msg_client "prefix.a".toList 1, msg_signal SIGINT 0]
      [msg_client "prefix.a".toList 1] [msg_port 1 1, msg_signal SIGCHLD 11]
      (msg_signal SIGTERM 0) (by decide) rfl (Or.inl rfl)).2.trans (by decide)⟩

/-! ## Reloading the patch -/

/-- The loop dies exactly when it has a state at `DIE`. -/
theorem reload_loop_none_iff_die (items : List Str) :
    ∀ v : ReloadVars, reload_loop v items = none ↔ (reload_loop_die v items).isSome = true := by
  induction items with
  | nil => intro v; simp [reload_loop, reload_loop_die]
  | cons item rest ih =>
    intro v
    by_cases h0 : item = []
    · simp [reload_loop, reload_loop_die, h0]
    · simp only [reload_loop, reload_loop_die, h0, if_false]
      cases reload_body v item with
      | none => simp
      | some w => simpa using ih w

/-- Reading one well-formed triple in state `START` does not reach `DIE`. -/
theorem reload_loop_die_triple (v : ReloadVars) (t : Triple) (hst : v.st = State.START)
    (hwf : t.wf) (rest : List Str) :
    ∃ w : ReloadVars, w.st = State.START ∧
      w.connections_ = v.connections_ ++ [t.rule] ∧
      reload_loop_die v (t.lhs :: t.arrow.token :: t.rhs :: rest) = reload_loop_die w rest := by
  obtain ⟨hl, hr⟩ := hwf
  obtain ⟨lhs, arrow, rhs⟩ := t
  obtain ⟨src, dst, st, cs⟩ := v
  simp only at hl hr hst
  subst hst
  have hl0 := mem_colon_ne_nil hl
  have hr0 := mem_colon_ne_nil hr
  cases arrow
  · refine ⟨{ src := lhs, dst := rhs, st := State.START,
              connections_ := cs ++ [(lhs, rhs)] }, rfl, rfl, ?_⟩
    have ha : right_arrow_token ≠ [] := by decide
    simp [reload_loop_die, hl0, hr0, ha, Arrow.token, reload_body_endpoint _ _ hl,
      reload_body_endpoint _ _ hr, reload_body_right_arrow]
  · refine ⟨{ src := rhs, dst := lhs, st := State.START,
              connections_ := cs ++ [(rhs, lhs)] }, rfl, rfl, ?_⟩
    have ha : left_arrow_token ≠ [] := by decide
    simp [reload_loop_die, hl0, hr0, ha, Arrow.token, reload_body_endpoint _ _ hl,
      reload_body_endpoint _ _ hr, reload_body_left_arrow]

/-- Reading a well-formed stream in state `START` does not reach `DIE` and leaves the rules
of its triples in `connections_`. -/
theorem reload_loop_die_stream (ts : List Triple) (hwf : ∀ t ∈ ts, t.wf) :
    ∀ (v : ReloadVars), v.st = State.START → ∀ rest : List Str,
    ∃ w : ReloadVars, w.st = State.START ∧
      w.connections_ = v.connections_ ++ ts.map Triple.rule ∧
      reload_loop_die v (stream_of ts ++ rest) = reload_loop_die w rest := by
  induction ts with
  | nil => intro v hst rest; exact ⟨v, hst, by simp, by simp [stream_of]⟩
  | cons t ts ih =>
    intro v hst rest
    obtain ⟨w1, h1, c1, e1⟩ :=
      reload_loop_die_triple v t hst (hwf t (List.mem_cons_self _ _)) (stream_of ts ++ rest)
    obtain ⟨w2, h2, c2, e2⟩ :=
      ih (fun u hu => hwf u (List.mem_cons_of_mem _ hu)) w1 h1 rest
    refine ⟨w2, h2, ?_, ?_⟩
    · rw [c2, c1]; simp
    · simp only [stream_of, List.cons_append]
      rw [e1, e2]

theorem reload_body_unrecognized (v : ReloadVars) (bad : Str) (hbad : ¬ recognized bad) :
    reload_body v bad = none := by
  have hc : (find bad ':' 0).isSome = false := by
    cases hf : (find bad ':' 0).isSome with
    | false => rfl
    | true => exact absurd (Or.inl ((find_zero_isSome bad ':').1 hf)) hbad
  have hr : bad ≠ right_arrow_token := fun e => hbad (Or.inr (Or.inl e))
  have hl : bad ≠ left_arrow_token := fun e => hbad (Or.inr (Or.inr e))
  simp [reload_body, reload_classify, hc, hr, hl]

theorem items_read_append_cons (l : List Str) (x : Str) (rest : List Str) :
    ∃ tail : List Str, items_read (l ++ x :: rest) = l ++ x :: tail := by
  unfold items_read
  cases h : (l ++ x :: rest).getLast? with
  | none => simp at h
  | some t => exact ⟨rest ++ [t], by simp⟩

/-- The member `connections_` when `Patch::reload` dies on an unrecognised token that follows
well-formed triples: the rules of those triples. -/
theorem reload_die_stream_of (p : Patch) (ts : List Triple) (hwf : ∀ t ∈ ts, t.wf)
    (bad : Str) (hne : bad ≠ []) (hbad : ¬ recognized bad) (rest : List Str) :
    p.reload_die (stream_of ts ++ bad :: rest) = some { connections_ := ts.map Triple.rule } := by
  obtain ⟨tail, htail⟩ := items_read_append_cons (stream_of ts) bad rest
  obtain ⟨w, _, hc, he⟩ := reload_loop_die_stream ts hwf
    { src := [], dst := [], st := State.START, connections_ := [] } rfl (bad :: tail)
  simp only [Patch.reload_die, htail, he]
  simp [reload_loop_die, hne, reload_body_unrecognized w bad hbad, hc]

/-- C13 (as the code has it): `Patch::reload` discards the rules held before as its first
step.  Whether it succeeds or dies, the outcome is that of parsing the source from an empty
rule sequence, independent of the rules held before: on success the rule sequence is
exactly the rules parsed from the source; on an unrecognised token the reload dies, and at
that moment the member holds the rules parsed before that token, not the previous ones. -/
theorem C13_reload_replaces (p q : Patch) (toks : List Str) (ts : List Triple)
    (bad : Str) (rest : List Str)
    (hwf : ∀ t ∈ ts, t.wf) (hne : bad ≠ []) (hbad : ¬ recognized bad) :
    p.reload toks = q.reload toks ∧
    p.reload toks = Patch.reload { connections_ := [] } toks ∧
    p.reload_die toks = q.reload_die toks ∧
    (p.reload toks = none ↔ (p.reload_die toks).isSome = true) ∧
    p.reload (stream_of ts) = some { connections_ := ts.map Triple.rule } ∧
    p.reload (stream_of ts ++ bad :: rest) = none ∧
    p.reload_die (stream_of ts ++ bad :: rest)
      = some { connections_ := ts.map Triple.rule } := by
  refine ⟨rfl, rfl, rfl, ?_, reload_stream_of p ts hwf, ?_,
    reload_die_stream_of p ts hwf bad hne hbad rest⟩
  · simp only [Patch.reload, Patch.reload_die, Option.map_eq_none', Option.isSome_map']
    exact reload_loop_none_iff_die _ _
  · have hd := reload_die_stream_of p ts hwf bad hne hbad rest
    have hiff : p.reload (stream_of ts ++ bad :: rest) = none ↔
        (p.reload_die (stream_of ts ++ bad :: rest)).isSome = true := by
      simp only [Patch.reload, Patch.reload_die, Option.map_eq_none', Option.isSome_map']
      exact reload_loop_none_iff_die _ _
    rw [hiff, hd]; rfl

/-- C13 (as the code has it) at the patch holding `(c:z, a:x)` and the streams
`a:x <- b:y` and `a:x -> b:y  c:z <- b:y  a:x -> b:y  foo  c:z`. -/
theorem C13_reload_replaces_witness :
    ex_patch.reload [ep_ax, left_arrow_token, ep_by]
      = Patch.reload { connections_ := [] } [ep_ax, left_arrow_token, ep_by] ∧
    ex_patch.reload [ep_ax, left_arrow_token, ep_by]
      = some { connections_ := [(ep_by, ep_ax)] } ∧
    ex_patch.reload (stream_of ex_triples ++ ['f', 'o', 'o'] :: [ep_cz]) = none ∧
    ex_patch.reload_die (stream_of ex_triples ++ ['f', 'o', 'o'] :: [ep_cz])
      = some { connections_ := [(ep_ax, ep_by), (ep_by, ep_cz), (ep_ax, ep_by)] } :=
  have h := C13_reload_replaces ex_patch { connections_ := [] }
    [ep_ax, left_arrow_token, ep_by] ex_triples ['f', 'o', 'o'] [ep_cz]
    ex_triples_wf (by decide) (by unfold recognized; decide)
  ⟨h.2.1, by decide, h.2.2.2.2.2.1, h.2.2.2.2.2.2⟩

/-- C13 fails as stated: reloading the patch that holds `(c:z, a:x)` from the stream
`a:x -> b:y foo` dies, and at that moment the member holds `(a:x, b:y)` and no longer the
rule held before; from the stream `foo` it dies with the member empty. -/
theorem C13_counterexample :
    ex_patch.reload [ep_ax, right_arrow_token, ep_by, ['f', 'o', 'o']] = none ∧
    ex_patch.reload_die [ep_ax, right_arrow_token, ep_by, ['f', 'o', 'o']]
      = some { connections_ := [(ep_ax, ep_by)] } ∧
    ex_patch.reload_die [ep_ax, right_arrow_token, ep_by, ['f', 'o', 'o']] ≠ some ex_patch ∧
    ex_patch.reload_die [['f', 'o', 'o']] = some { connections_ := [] } := by
  decide

/-! ## Buffer -/

theorem resize_fixed (b : zz_buffer_t) (hdyn : b.dynamic = 0) (n : Nat) (ok : Bool) :
    zz_buffer_resize b n ok = (0, b) := by
  simp [zz_buffer_resize, hdyn]

theorem memcpy_outside (mem src : Nat → Nat) (off n i : Nat) (h : off + n ≤ i) :
    memcpy mem off src n i = mem i := by
  have : ¬ (off ≤ i ∧ i < off + n) := by omega
  simp [memcpy, this]

/-- A non-dynamic buffer keeps its capacity, and its size stays within the capacity, whatever
is appended. -/
theorem append_fixed_capacity (b : zz_buffer_t) (hdyn : b.dynamic = 0)
    (hsz : b.size ≤ b.capacity) (src : Nat → Nat) (n : Nat) (ok : Bool)
    (r : Nat × zz_buffer_t) (h : zz_buffer_append b src n ok = some r) :
    r.2.capacity = b.capacity ∧ r.2.size ≤ b.capacity ∧ r.2.dynamic = 0 := by
  unfold zz_buffer_append at h
  by_cases hgt : (b.size + n) % 2 ^ 32 > b.capacity
  · simp only [hgt, if_true, resize_fixed b hdyn, Option.some.injEq] at h
    subst h
    exact ⟨rfl, hsz, hdyn⟩
  · simp only [hgt, if_false, zz_buffer_append_copy] at h
    cases hd : b.data with
    | none => simp [hd] at h
    | some mem =>
      simp only [hd, Option.some.injEq] at h
      subst h
      exact ⟨rfl, by simpa using hgt, hdyn⟩

/-- On a non-dynamic buffer an append whose length does not make `size + n` wrap behaves as
intended: data that fits is copied inside the buffer, data that does not fit is refused with
`0` and the buffer is left as it was. -/
theorem append_fixed_no_wrap (b : zz_buffer_t) (mem : Nat → Nat) (hdyn : b.dynamic = 0)
    (hdata : b.data = some mem) (src : Nat → Nat) (n : Nat) (ok : Bool)
    (hno : b.size + n < 2 ^ 32) :
    (b.size + n ≤ b.capacity →
      zz_buffer_append b src n ok
        = some (n, { b with data := some (memcpy mem b.size src n), size := b.size + n }) ∧
      ∀ i, b.capacity ≤ i → memcpy mem b.size src n i = mem i) ∧
    (b.capacity < b.size + n → zz_buffer_append b src n ok = some (0, b)) := by
  have hno2 : b.size + n < 4294967296 := by
    have e : (2 : Nat) ^ 32 = 4294967296 := by norm_num
    rw [e] at hno; exact hno
  have hmod : (b.size + n) % 4294967296 = b.size + n := Nat.mod_eq_of_lt hno2
  constructor
  · intro hfit
    refine ⟨?_, fun i hi => memcpy_outside mem src b.size n i (by omega)⟩
    have : ¬ b.size + n > b.capacity := by omega
    simp [zz_buffer_append, hmod, this, zz_buffer_append_copy, hdata]
  · intro hbig
    have : b.size + n > b.capacity := hbig
    simp [zz_buffer_append, hmod, this, resize_fixed b hdyn]

/-- C14 at the failing input: the non-dynamic buffer of capacity 1024 holding 10 bytes,
asked to append `2^32 - 5` bytes.  The sum wraps to 5, which passes the capacity test: the
call returns the length instead of `0`, sets the size to 5, and the copy writes beyond the
capacity (the byte at offset 1024 and the byte at offset 5000 are overwritten). -/
theorem C14_append_wraps_past_capacity :
    ex_buffer.dynamic = 0 ∧ ex_buffer.size ≤ ex_buffer.capacity ∧
    ex_buffer.capacity = 1024 ∧ ex_buffer.capacity < ex_buffer.size + 4294967291 ∧
    (zz_buffer_append ex_buffer ex_bytes 4294967291 false).map
        (fun r => (r.1, r.2.size, r.2.capacity)) = some (4294967291, 5, 1024) ∧
    ex_buffer.data.map (fun m => (m 1024, m 5000)) = some (0, 0) ∧
    (zz_buffer_append ex_buffer ex_bytes 4294967291 false).bind
        (fun r => r.2.data.map (fun m => (m 1024, m 5000))) = some (255, 255) := by
  decide

end Showtime
